import Mathlib

/-!
Shallow embedding of the training pipeline of `ai-model-pipelines-example`
(`src/train.py`, `src/evaluate.py`, `src/data/dataset.py`) together with
proofs of the behavioural properties of its training loop, learning-rate
schedule, distributed setup, checkpointing and dataset windowing.

Modelling conventions:
* Gradients of a single scalar parameter are modelled over `ℚ`; `backward`
  on a loss scaled by `c` accrues `c`-scaled gradient contributions, so
  `scaler.scale(loss).backward()` with `loss = rawLoss / N` adds `g/N` to
  the accumulated gradient, where `g` is the micro-step gradient of the
  unscaled loss (the `GradScaler` is the identity for the modelled
  non-float16 dtypes).
* The micro-step gradients themselves come from the opaque model collaborator
  and are supplied as an arbitrary stream `g : ℕ → ℚ` indexed by the global
  iteration counter `iter_num` (which is incremented exactly once per batch).
* `get_lr` of `train.py` divides by `lr_decay_iters - warmup_iters`; in
  Python that division raises `ZeroDivisionError` when the two are equal and
  the cosine branch is reached.  The loop embedding records this as
  `lrFailedAt` and, as in Python, the exception aborts both loops and skips
  the final save.
* File-system behaviour (checkpoint writes, console prints) is recorded as
  counters and lists of events in the state.
-/

namespace AiModelPipelines

/-- The fields of `config["training"]` that the control flow of
`train.py` reads inside the loop (`src/train.py` lines 104-168). -/
structure TrainConfig where
  gradAccumSteps : ℕ
  maxIters : ℕ
  maxEpochs : ℕ
  /-- number of batches yielded by `train_loader` per epoch -/
  batchesPerEpoch : ℕ
  logInterval : ℕ
  evalInterval : ℕ
  warmupIters : ℕ
  lrDecayIters : ℕ
  gradClip : ℚ
deriving DecidableEq

/-- The mutable state of one process running `train` (`src/train.py`):
the global step counter `iter_num`, the accumulated gradient of the single
modelled parameter, and the observable events (optimizer updates with the
gradient they applied, checkpoint saves, console prints). -/
structure TrainState where
  iterNum : ℕ
  grad : ℚ
  /-- gradient value handed to `scaler.step(optimizer)` at each boundary,
  in order of occurrence -/
  appliedGrads : List ℚ
  /-- The `iter_num` values at which an interval checkpoint file was written -/
  checkpoints : List ℕ
  /-- number of `print` calls issued by this process -/
  logCount : ℕ
  /-- Holds `some it` once `get_lr` has raised `ZeroDivisionError` at step `it` -/
  lrFailedAt : Option ℕ
  /-- whether `final_model.pt` has been written -/
  finalSaved : Bool
deriving DecidableEq

/-- The function `get_lr` (`src/train.py` lines 34-41) raises `ZeroDivisionError` exactly
when neither early return fires and `lr_decay_iters - warmup_iters = 0`:
the Python expression `(it - warmup_iters) / (lr_decay_iters - warmup_iters)`
is an integer division by zero in that case. -/
def lrRaises (it warmup_iters lr_decay_iters : ℕ) : Bool :=
  !(decide (it < warmup_iters)) && !(decide (lr_decay_iters < it)) &&
    (warmup_iters == lr_decay_iters)

/-- Effect of `torch.nn.utils.clip_grad_norm_` on the single modelled parameter:
rescales the gradient so its norm is at most `c`; `train.py` line 128 skips
it entirely when `grad_clip == 0.0`. -/
def clipValue (c x : ℚ) : ℚ :=
  if c = 0 then x
  else if |x| ≤ c then x
  else c * (x / |x|)

/-- The predicate `is_master = rank == 0` (`src/train.py` line 49). -/
def is_master (rank : ℕ) : Bool := rank == 0

/-- One iteration of the inner `for batch_idx, (x, y) in enumerate(train_loader)`
loop body (`src/train.py` lines 108-158), up to but excluding the `break`
test: `get_lr` (recording its possible `ZeroDivisionError`), scaled backward,
conditional optimizer step at an accumulation boundary, master-gated logging
and interval checkpointing, and the `iter_num` increment. -/
def stepBatch (cfg : TrainConfig) (m : Bool) (g : ℕ → ℚ) (batchIdx : ℕ)
    (s : TrainState) : TrainState :=
  if lrRaises s.iterNum cfg.warmupIters cfg.lrDecayIters then
    { s with lrFailedAt := some s.iterNum }
  else
    let grad1 := s.grad + g s.iterNum / (cfg.gradAccumSteps : ℚ)
    let boundary := (batchIdx + 1) % cfg.gradAccumSteps = 0
    let grad2 := if boundary then 0 else grad1
    let applied2 :=
      if boundary then s.appliedGrads ++ [clipValue cfg.gradClip grad1]
      else s.appliedGrads
    let log2 :=
      if s.iterNum % cfg.logInterval = 0 ∧ m = true then s.logCount + 1
      else s.logCount
    let ckpt := s.iterNum % cfg.evalInterval = 0 ∧ 0 < s.iterNum ∧ m = true
    let ck2 := if ckpt then s.checkpoints ++ [s.iterNum] else s.checkpoints
    let log3 := if ckpt then log2 + 1 else log2
    { iterNum := s.iterNum + 1, grad := grad2, appliedGrads := applied2,
      checkpoints := ck2, logCount := log3, lrFailedAt := s.lrFailedAt,
      finalSaved := s.finalSaved }

/-- The inner batch loop (`src/train.py` lines 108-160): processes the
remaining batches of the epoch, propagating a `ZeroDivisionError` from
`get_lr` and honouring `if iter_num >= max_iters: break` after each batch. -/
def runBatches (cfg : TrainConfig) (m : Bool) (g : ℕ → ℚ) :
    ℕ → ℕ → TrainState → TrainState
  | 0, _, s => s
  | n + 1, b, s =>
    let s1 := stepBatch cfg m g b s
    if s1.lrFailedAt.isSome then s1
    else if cfg.maxIters ≤ s1.iterNum then s1
    else runBatches cfg m g n (b + 1) s1

/-- The outer epoch loop (`src/train.py` lines 104-163): each epoch runs the
inner loop over `batchesPerEpoch` batches starting from `batch_idx = 0`,
then `if iter_num >= max_iters: break`; an exception aborts everything. -/
def runEpochs (cfg : TrainConfig) (m : Bool) (g : ℕ → ℚ) :
    ℕ → TrainState → TrainState
  | 0, s => s
  | e + 1, s =>
    let s1 := runBatches cfg m g cfg.batchesPerEpoch 0 s
    if s1.lrFailedAt.isSome then s1
    else if cfg.maxIters ≤ s1.iterNum then s1
    else runEpochs cfg m g e s1

/-- The state in which `train` enters its loop: counters zero, no gradient,
and the two master-only startup prints (`src/train.py` lines 97-99). -/
def initState (m : Bool) : TrainState :=
  { iterNum := 0, grad := 0, appliedGrads := [], checkpoints := [],
    logCount := if m = true then 2 else 0, lrFailedAt := none,
    finalSaved := false }

/-- The driver `train(config_path)` (`src/train.py` lines 44-170) for one process of
the given rank: run the epoch loop, then, unless an exception escaped, the
master writes `final_model.pt` and prints a completion line
(lines 165-168). -/
def trainRun (cfg : TrainConfig) (rank : ℕ) (g : ℕ → ℚ) : TrainState :=
  let m := is_master rank
  let s := runEpochs cfg m g cfg.maxEpochs (initState m)
  if s.lrFailedAt.isSome then s
  else if m = true then { s with finalSaved := true, logCount := s.logCount + 1 }
  else s

/-- Sum of the scaled micro-step gradient contributions `g i / N` over the
accumulation window with index `j`, i.e. micro-steps `j*N, ..., j*N + N - 1`.
Equals the mean of the `N` unscaled micro-step gradients of that window. -/
def windowAvg (g : ℕ → ℚ) (N j : ℕ) : ℚ :=
  ∑ i ∈ Finset.Ico (j * N) (j * N + N), g i / (N : ℚ)

/-- The sequence of gradients the optimizer has applied after `t` aligned
micro-steps: one (possibly clipped) window average per completed window. -/
def appliedWindows (g : ℕ → ℚ) (N : ℕ) (c : ℚ) (t : ℕ) : List ℚ :=
  (List.range (t / N)).map (fun j => clipValue c (windowAvg g N j))

/-- The gradient still pending in the accumulator after `t` aligned
micro-steps: the scaled contributions of the current partial window. -/
def pendingGrad (g : ℕ → ℚ) (N t : ℕ) : ℚ :=
  ∑ i ∈ Finset.Ico (N * (t / N)) t, g i / (N : ℚ)

/-! ### Basic lemmas about the loop body -/

theorem lrRaises_of_ne {W D : ℕ} (h : W ≠ D) (it : ℕ) : lrRaises it W D = false := by
  simp [lrRaises, h]

theorem lrRaises_lt {W : ℕ} (it : ℕ) (h : it < W) : lrRaises it W W = false := by
  simp [lrRaises, h]

theorem lrRaises_self (W : ℕ) : lrRaises W W W = true := by
  simp [lrRaises]

theorem clipValue_zero (x : ℚ) : clipValue 0 x = x := by
  simp [clipValue]

/-- Explicit form of `stepBatch` when `get_lr` does not raise at the current
step. -/
theorem stepBatch_eq_of_noraise {cfg : TrainConfig} {s : TrainState}
    (hr : lrRaises s.iterNum cfg.warmupIters cfg.lrDecayIters = false)
    (m : Bool) (g : ℕ → ℚ) (b : ℕ) :
    stepBatch cfg m g b s =
      { iterNum := s.iterNum + 1,
        grad := if (b + 1) % cfg.gradAccumSteps = 0 then 0
          else s.grad + g s.iterNum / (cfg.gradAccumSteps : ℚ),
        appliedGrads := if (b + 1) % cfg.gradAccumSteps = 0 then
            s.appliedGrads ++
              [clipValue cfg.gradClip
                (s.grad + g s.iterNum / (cfg.gradAccumSteps : ℚ))]
          else s.appliedGrads,
        checkpoints := if s.iterNum % cfg.evalInterval = 0 ∧ 0 < s.iterNum ∧ m = true
          then s.checkpoints ++ [s.iterNum] else s.checkpoints,
        logCount :=
          (if s.iterNum % cfg.evalInterval = 0 ∧ 0 < s.iterNum ∧ m = true then
            (if s.iterNum % cfg.logInterval = 0 ∧ m = true then s.logCount + 1
              else s.logCount) + 1
          else if s.iterNum % cfg.logInterval = 0 ∧ m = true then s.logCount + 1
          else s.logCount),
        lrFailedAt := s.lrFailedAt,
        finalSaved := s.finalSaved } := by
  rw [stepBatch, if_neg]
  rw [hr]
  exact Bool.false_ne_true

/-- Explicit form of `stepBatch` when `warmup_iters ≠ lr_decay_iters`, so
that `get_lr` can never raise. -/
theorem stepBatch_eq {cfg : TrainConfig}
    (hWD : cfg.warmupIters ≠ cfg.lrDecayIters) (m : Bool) (g : ℕ → ℚ)
    (b : ℕ) (s : TrainState) :
    stepBatch cfg m g b s =
      { iterNum := s.iterNum + 1,
        grad := if (b + 1) % cfg.gradAccumSteps = 0 then 0
          else s.grad + g s.iterNum / (cfg.gradAccumSteps : ℚ),
        appliedGrads := if (b + 1) % cfg.gradAccumSteps = 0 then
            s.appliedGrads ++
              [clipValue cfg.gradClip
                (s.grad + g s.iterNum / (cfg.gradAccumSteps : ℚ))]
          else s.appliedGrads,
        checkpoints := if s.iterNum % cfg.evalInterval = 0 ∧ 0 < s.iterNum ∧ m = true
          then s.checkpoints ++ [s.iterNum] else s.checkpoints,
        logCount :=
          (if s.iterNum % cfg.evalInterval = 0 ∧ 0 < s.iterNum ∧ m = true then
            (if s.iterNum % cfg.logInterval = 0 ∧ m = true then s.logCount + 1
              else s.logCount) + 1
          else if s.iterNum % cfg.logInterval = 0 ∧ m = true then s.logCount + 1
          else s.logCount),
        lrFailedAt := s.lrFailedAt,
        finalSaved := s.finalSaved } :=
  stepBatch_eq_of_noraise (lrRaises_of_ne hWD s.iterNum) m g b

theorem runBatches_succ (cfg : TrainConfig) (m : Bool) (g : ℕ → ℚ)
    (n b : ℕ) (s : TrainState) :
    runBatches cfg m g (n + 1) b s =
      (let s1 := stepBatch cfg m g b s
       if s1.lrFailedAt.isSome then s1
       else if cfg.maxIters ≤ s1.iterNum then s1
       else runBatches cfg m g n (b + 1) s1) := rfl

/-! ### Window arithmetic -/

theorem pendingGrad_zero_of_boundary (g : ℕ → ℚ) {N t : ℕ}
    (h : (t + 1) % N = 0) : pendingGrad g N (t + 1) = 0 := by
  have hd : N ∣ t + 1 := Nat.dvd_of_mod_eq_zero h
  rw [pendingGrad, Nat.mul_div_cancel' hd, Finset.Ico_self, Finset.sum_empty]

theorem pendingGrad_succ_of_boundary (g : ℕ → ℚ) {N t : ℕ}
    (h : (t + 1) % N = 0) :
    pendingGrad g N t + g t / (N : ℚ) = windowAvg g N (t / N) := by
  have hd : N ∣ t + 1 := Nat.dvd_of_mod_eq_zero h
  have hcancel : N * ((t + 1) / N) = t + 1 := Nat.mul_div_cancel' hd
  have hdiv : (t + 1) / N = t / N + 1 := Nat.succ_div_of_dvd hd
  have hend : t / N * N + N = t + 1 := by
    rw [hdiv, Nat.mul_succ] at hcancel
    rw [Nat.mul_comm]
    exact hcancel
  rw [pendingGrad, windowAvg, Nat.mul_comm N (t / N), hend,
    Finset.sum_Ico_succ_top (by rw [Nat.mul_comm]; exact Nat.mul_div_le t N)]

theorem pendingGrad_succ_of_mid (g : ℕ → ℚ) {N t : ℕ}
    (h : ¬ (t + 1) % N = 0) :
    pendingGrad g N (t + 1) = pendingGrad g N t + g t / (N : ℚ) := by
  have hnd : ¬ N ∣ t + 1 := fun hd => h (Nat.mod_eq_zero_of_dvd hd)
  rw [pendingGrad, pendingGrad, Nat.succ_div_of_not_dvd hnd,
    Finset.sum_Ico_succ_top (Nat.mul_div_le t N)]

theorem appliedWindows_succ_of_boundary (g : ℕ → ℚ) {N : ℕ} (c : ℚ) {t : ℕ}
    (h : (t + 1) % N = 0) :
    appliedWindows g N c (t + 1) =
      appliedWindows g N c t ++ [clipValue c (windowAvg g N (t / N))] := by
  have hd : N ∣ t + 1 := Nat.dvd_of_mod_eq_zero h
  rw [appliedWindows, appliedWindows, Nat.succ_div_of_dvd hd, List.range_succ,
    List.map_append, List.map_singleton]

theorem appliedWindows_succ_of_mid (g : ℕ → ℚ) {N : ℕ} (c : ℚ) {t : ℕ}
    (h : ¬ (t + 1) % N = 0) :
    appliedWindows g N c (t + 1) = appliedWindows g N c t := by
  have hnd : ¬ N ∣ t + 1 := fun hd => h (Nat.mod_eq_zero_of_dvd hd)
  rw [appliedWindows, appliedWindows, Nat.succ_div_of_not_dvd hnd]

/-! ### The inner-loop invariant (aligned entry) -/

/-- Invariant of the inner batch loop when the batch index is congruent to
`iter_num` modulo the accumulation window size: the counter advances by
`min`(remaining batches, distance to `max_iters`), `get_lr` never raises,
the optimizer has applied exactly one (possibly clipped) window average per
completed window, and the accumulator holds the current partial window. -/
theorem runBatches_inv {cfg : TrainConfig} (m : Bool) (g : ℕ → ℚ)
    (hWD : cfg.warmupIters ≠ cfg.lrDecayIters) :
    ∀ (n b : ℕ) (s : TrainState),
      s.lrFailedAt = none →
      s.iterNum < cfg.maxIters →
      b % cfg.gradAccumSteps = s.iterNum % cfg.gradAccumSteps →
      s.grad = pendingGrad g cfg.gradAccumSteps s.iterNum →
      s.appliedGrads = appliedWindows g cfg.gradAccumSteps cfg.gradClip s.iterNum →
      (runBatches cfg m g n b s).iterNum = min (s.iterNum + n) cfg.maxIters ∧
      (runBatches cfg m g n b s).lrFailedAt = none ∧
      (runBatches cfg m g n b s).grad =
        pendingGrad g cfg.gradAccumSteps (runBatches cfg m g n b s).iterNum ∧
      (runBatches cfg m g n b s).appliedGrads =
        appliedWindows g cfg.gradAccumSteps cfg.gradClip
          (runBatches cfg m g n b s).iterNum := by
  intro n
  induction n with
  | zero =>
    intro b s h0 h1 _ h3 h4
    refine ⟨?_, h0, h3, h4⟩
    show s.iterNum = min (s.iterNum + 0) cfg.maxIters
    omega
  | succ n ih =>
    intro b s h0 h1 h2 h3 h4
    have hbb : (b + 1) % cfg.gradAccumSteps = (s.iterNum + 1) % cfg.gradAccumSteps := by
      rw [Nat.add_mod b, Nat.add_mod s.iterNum, h2]
    have key : runBatches cfg m g (n + 1) b s =
        if cfg.maxIters ≤ s.iterNum + 1 then stepBatch cfg m g b s
        else runBatches cfg m g n (b + 1) (stepBatch cfg m g b s) := by
      rw [runBatches_succ]
      show (if (stepBatch cfg m g b s).lrFailedAt.isSome then stepBatch cfg m g b s
        else if cfg.maxIters ≤ (stepBatch cfg m g b s).iterNum then stepBatch cfg m g b s
        else runBatches cfg m g n (b + 1) (stepBatch cfg m g b s)) = _
      rw [stepBatch_eq hWD]
      simp only [h0, Option.isSome_none, Bool.false_eq_true, if_false]
    have hs1iter : (stepBatch cfg m g b s).iterNum = s.iterNum + 1 := by
      rw [stepBatch_eq hWD]
    have hs1none : (stepBatch cfg m g b s).lrFailedAt = none := by
      rw [stepBatch_eq hWD]; exact h0
    have hs1grad : (stepBatch cfg m g b s).grad =
        pendingGrad g cfg.gradAccumSteps (s.iterNum + 1) := by
      rw [stepBatch_eq hWD]
      show (if (b + 1) % cfg.gradAccumSteps = 0 then 0
        else s.grad + g s.iterNum / (cfg.gradAccumSteps : ℚ)) = _
      rw [hbb]
      by_cases hb : (s.iterNum + 1) % cfg.gradAccumSteps = 0
      · rw [if_pos hb, pendingGrad_zero_of_boundary g hb]
      · rw [if_neg hb, pendingGrad_succ_of_mid g hb, h3]
    have hs1app : (stepBatch cfg m g b s).appliedGrads =
        appliedWindows g cfg.gradAccumSteps cfg.gradClip (s.iterNum + 1) := by
      rw [stepBatch_eq hWD]
      show (if (b + 1) % cfg.gradAccumSteps = 0 then
          s.appliedGrads ++
            [clipValue cfg.gradClip
              (s.grad + g s.iterNum / (cfg.gradAccumSteps : ℚ))]
        else s.appliedGrads) = _
      rw [hbb]
      by_cases hb : (s.iterNum + 1) % cfg.gradAccumSteps = 0
      · rw [if_pos hb, appliedWindows_succ_of_boundary g cfg.gradClip hb, h4, h3,
          pendingGrad_succ_of_boundary g hb]
      · rw [if_neg hb, appliedWindows_succ_of_mid g cfg.gradClip hb, h4]
    rw [key]
    by_cases hK : cfg.maxIters ≤ s.iterNum + 1
    · rw [if_pos hK, hs1iter]
      have hmin : s.iterNum + 1 = min (s.iterNum + (n + 1)) cfg.maxIters := by omega
      exact ⟨hmin, hs1none, by rw [hs1grad], by rw [hs1app]⟩
    · rw [if_neg hK]
      have := ih (b + 1) (stepBatch cfg m g b s) hs1none
        (by omega) (by rw [hbb, hs1iter]) (by rw [hs1grad, hs1iter])
        (by rw [hs1app, hs1iter])
      rw [hs1iter] at this
      have harith : s.iterNum + 1 + n = s.iterNum + (n + 1) := by omega
      rw [harith] at this
      exact this

/-! ### The epoch-loop invariant (aligned epochs) -/

theorem runEpochs_succ (cfg : TrainConfig) (m : Bool) (g : ℕ → ℚ)
    (e : ℕ) (s : TrainState) :
    runEpochs cfg m g (e + 1) s =
      (let s1 := runBatches cfg m g cfg.batchesPerEpoch 0 s
       if s1.lrFailedAt.isSome then s1
       else if cfg.maxIters ≤ s1.iterNum then s1
       else runEpochs cfg m g e s1) := rfl

/-- Invariant of the outer epoch loop when every epoch's batch count is a
multiple of the accumulation window size, so that each epoch starts
window-aligned. -/
theorem runEpochs_inv {cfg : TrainConfig} (m : Bool) (g : ℕ → ℚ)
    (hWD : cfg.warmupIters ≠ cfg.lrDecayIters)
    (hNB : cfg.gradAccumSteps ∣ cfg.batchesPerEpoch) :
    ∀ (e : ℕ) (s : TrainState),
      s.lrFailedAt = none →
      s.iterNum < cfg.maxIters →
      cfg.gradAccumSteps ∣ s.iterNum →
      s.grad = pendingGrad g cfg.gradAccumSteps s.iterNum →
      s.appliedGrads = appliedWindows g cfg.gradAccumSteps cfg.gradClip s.iterNum →
      (runEpochs cfg m g e s).iterNum =
        min (s.iterNum + e * cfg.batchesPerEpoch) cfg.maxIters ∧
      (runEpochs cfg m g e s).lrFailedAt = none ∧
      (runEpochs cfg m g e s).grad =
        pendingGrad g cfg.gradAccumSteps (runEpochs cfg m g e s).iterNum ∧
      (runEpochs cfg m g e s).appliedGrads =
        appliedWindows g cfg.gradAccumSteps cfg.gradClip
          (runEpochs cfg m g e s).iterNum := by
  intro e
  induction e with
  | zero =>
    intro s h0 h1 _ h3 h4
    refine ⟨?_, h0, h3, h4⟩
    show s.iterNum = min (s.iterNum + 0 * cfg.batchesPerEpoch) cfg.maxIters
    omega
  | succ e ih =>
    intro s h0 h1 h2 h3 h4
    have hmod : (0 : ℕ) % cfg.gradAccumSteps = s.iterNum % cfg.gradAccumSteps := by
      rw [Nat.zero_mod, (Nat.mod_eq_zero_of_dvd h2).symm]
    obtain ⟨hi, hn, hg, ha⟩ :=
      runBatches_inv m g hWD cfg.batchesPerEpoch 0 s h0 h1 hmod h3 h4
    have key : runEpochs cfg m g (e + 1) s =
        if cfg.maxIters ≤ (runBatches cfg m g cfg.batchesPerEpoch 0 s).iterNum
        then runBatches cfg m g cfg.batchesPerEpoch 0 s
        else runEpochs cfg m g e (runBatches cfg m g cfg.batchesPerEpoch 0 s) := by
      rw [runEpochs_succ]
      show (if (runBatches cfg m g cfg.batchesPerEpoch 0 s).lrFailedAt.isSome
        then runBatches cfg m g cfg.batchesPerEpoch 0 s
        else if cfg.maxIters ≤ (runBatches cfg m g cfg.batchesPerEpoch 0 s).iterNum
        then runBatches cfg m g cfg.batchesPerEpoch 0 s
        else runEpochs cfg m g e (runBatches cfg m g cfg.batchesPerEpoch 0 s)) = _
      rw [hn]
      simp only [Option.isSome_none, Bool.false_eq_true, if_false]
    rw [key]
    by_cases hK : cfg.maxIters ≤ (runBatches cfg m g cfg.batchesPerEpoch 0 s).iterNum
    · rw [if_pos hK]
      refine ⟨?_, hn, hg, ha⟩
      rw [hi] at hK ⊢
      have : s.iterNum + cfg.batchesPerEpoch ≥ cfg.maxIters := by omega
      have h2 : s.iterNum + (e + 1) * cfg.batchesPerEpoch ≥ cfg.maxIters := by
        have := Nat.le_mul_of_pos_left cfg.batchesPerEpoch (Nat.succ_pos e)
        nlinarith [Nat.succ_mul e cfg.batchesPerEpoch]
      omega
    · rw [if_neg hK]
      have hlt : (runBatches cfg m g cfg.batchesPerEpoch 0 s).iterNum <
          cfg.maxIters := by omega
      have hiter : (runBatches cfg m g cfg.batchesPerEpoch 0 s).iterNum =
          s.iterNum + cfg.batchesPerEpoch := by
        rw [hi]; omega
      have hdvd : cfg.gradAccumSteps ∣
          (runBatches cfg m g cfg.batchesPerEpoch 0 s).iterNum := by
        rw [hiter]; exact Nat.dvd_add h2 hNB
      have := ih (runBatches cfg m g cfg.batchesPerEpoch 0 s) hn hlt hdvd hg ha
      rw [hiter] at this
      have harith : s.iterNum + cfg.batchesPerEpoch + e * cfg.batchesPerEpoch =
          s.iterNum + (e + 1) * cfg.batchesPerEpoch := by
        rw [Nat.succ_mul]; omega
      rw [harith] at this
      exact this

/-- Full characterization of an aligned run of `train`: with every epoch's
batch count divisible by `gradAccumSteps` and a positive `max_iters`, the
final counter is `min(maxEpochs * batchesPerEpoch, maxIters)`, no
`ZeroDivisionError` occurs, and the optimizer has applied exactly the
(possibly clipped) per-window mean gradients of the completed windows. -/
theorem trainRun_aligned {cfg : TrainConfig} (rank : ℕ) (g : ℕ → ℚ)
    (hWD : cfg.warmupIters ≠ cfg.lrDecayIters)
    (hNB : cfg.gradAccumSteps ∣ cfg.batchesPerEpoch)
    (hK : 0 < cfg.maxIters) :
    (trainRun cfg rank g).iterNum =
      min (cfg.maxEpochs * cfg.batchesPerEpoch) cfg.maxIters ∧
    (trainRun cfg rank g).lrFailedAt = none ∧
    (trainRun cfg rank g).grad =
      pendingGrad g cfg.gradAccumSteps (trainRun cfg rank g).iterNum ∧
    (trainRun cfg rank g).appliedGrads =
      appliedWindows g cfg.gradAccumSteps cfg.gradClip
        (trainRun cfg rank g).iterNum := by
  have h0 : (initState (is_master rank)).lrFailedAt = none := rfl
  have h1 : (initState (is_master rank)).iterNum < cfg.maxIters := hK
  have h2 : cfg.gradAccumSteps ∣ (initState (is_master rank)).iterNum :=
    Dvd.intro 0 rfl
  have h3 : (initState (is_master rank)).grad =
      pendingGrad g cfg.gradAccumSteps (initState (is_master rank)).iterNum := by
    show (0 : ℚ) = pendingGrad g cfg.gradAccumSteps 0
    rw [pendingGrad, Nat.zero_div, Nat.mul_zero, Finset.Ico_self, Finset.sum_empty]
  have h4 : (initState (is_master rank)).appliedGrads =
      appliedWindows g cfg.gradAccumSteps cfg.gradClip
        (initState (is_master rank)).iterNum := by
    show ([] : List ℚ) = appliedWindows g cfg.gradAccumSteps cfg.gradClip 0
    rw [appliedWindows, Nat.zero_div, List.range_zero, List.map_nil]
  obtain ⟨hi, hn, hg, ha⟩ := runEpochs_inv (is_master rank) g hWD hNB
    cfg.maxEpochs (initState (is_master rank)) h0 h1 h2 h3 h4
  have hi' : (runEpochs cfg (is_master rank) g cfg.maxEpochs
      (initState (is_master rank))).iterNum =
      min (cfg.maxEpochs * cfg.batchesPerEpoch) cfg.maxIters := by
    rw [hi]
    show min (0 + cfg.maxEpochs * cfg.batchesPerEpoch) cfg.maxIters = _
    rw [Nat.zero_add]
  have hfail : (runEpochs cfg (is_master rank) g cfg.maxEpochs
      (initState (is_master rank))).lrFailedAt.isSome = false := by
    rw [hn]; rfl
  have hrun : trainRun cfg rank g =
      (let s := runEpochs cfg (is_master rank) g cfg.maxEpochs
        (initState (is_master rank))
       if is_master rank = true then
         { s with finalSaved := true, logCount := s.logCount + 1 }
       else s) := by
    rw [trainRun]
    show (if (runEpochs cfg (is_master rank) g cfg.maxEpochs
        (initState (is_master rank))).lrFailedAt.isSome then _ else _) = _
    rw [hfail]
    simp only [Bool.false_eq_true, if_false]
  rw [hrun]
  show ((if is_master rank = true then _ else _ : TrainState)).iterNum = _ ∧ _
  by_cases hm : is_master rank = true
  · rw [if_pos hm]
    exact ⟨hi', hn, hg, ha⟩
  · rw [if_neg hm]
    exact ⟨hi', hn, hg, ha⟩

/-! ### Counter behaviour without any alignment assumption -/

theorem runBatches_iterNum {cfg : TrainConfig} (m : Bool) (g : ℕ → ℚ)
    (hWD : cfg.warmupIters ≠ cfg.lrDecayIters) :
    ∀ (n b : ℕ) (s : TrainState),
      s.lrFailedAt = none →
      s.iterNum < cfg.maxIters →
      (runBatches cfg m g n b s).iterNum = min (s.iterNum + n) cfg.maxIters ∧
      (runBatches cfg m g n b s).lrFailedAt = none := by
  intro n
  induction n with
  | zero =>
    intro b s h0 h1
    refine ⟨?_, h0⟩
    show s.iterNum = min (s.iterNum + 0) cfg.maxIters
    omega
  | succ n ih =>
    intro b s h0 h1
    have key : runBatches cfg m g (n + 1) b s =
        if cfg.maxIters ≤ s.iterNum + 1 then stepBatch cfg m g b s
        else runBatches cfg m g n (b + 1) (stepBatch cfg m g b s) := by
      rw [runBatches_succ]
      show (if (stepBatch cfg m g b s).lrFailedAt.isSome then stepBatch cfg m g b s
        else if cfg.maxIters ≤ (stepBatch cfg m g b s).iterNum then stepBatch cfg m g b s
        else runBatches cfg m g n (b + 1) (stepBatch cfg m g b s)) = _
      rw [stepBatch_eq hWD]
      simp only [h0, Option.isSome_none, Bool.false_eq_true, if_false]
    have hs1iter : (stepBatch cfg m g b s).iterNum = s.iterNum + 1 := by
      rw [stepBatch_eq hWD]
    have hs1none : (stepBatch cfg m g b s).lrFailedAt = none := by
      rw [stepBatch_eq hWD]; exact h0
    rw [key]
    by_cases hK : cfg.maxIters ≤ s.iterNum + 1
    · rw [if_pos hK, hs1iter]
      exact ⟨by omega, hs1none⟩
    · rw [if_neg hK]
      have := ih (b + 1) (stepBatch cfg m g b s) hs1none (by omega)
      rw [hs1iter] at this
      have harith : s.iterNum + 1 + n = s.iterNum + (n + 1) := by omega
      rw [harith] at this
      exact this

theorem runEpochs_iterNum {cfg : TrainConfig} (m : Bool) (g : ℕ → ℚ)
    (hWD : cfg.warmupIters ≠ cfg.lrDecayIters) :
    ∀ (e : ℕ) (s : TrainState),
      s.lrFailedAt = none →
      s.iterNum < cfg.maxIters →
      (runEpochs cfg m g e s).iterNum =
        min (s.iterNum + e * cfg.batchesPerEpoch) cfg.maxIters ∧
      (runEpochs cfg m g e s).lrFailedAt = none := by
  intro e
  induction e with
  | zero =>
    intro s h0 h1
    refine ⟨?_, h0⟩
    show s.iterNum = min (s.iterNum + 0 * cfg.batchesPerEpoch) cfg.maxIters
    omega
  | succ e ih =>
    intro s h0 h1
    obtain ⟨hi, hn⟩ := runBatches_iterNum m g hWD cfg.batchesPerEpoch 0 s h0 h1
    have hfail : (runBatches cfg m g cfg.batchesPerEpoch 0 s).lrFailedAt.isSome
        = false := by rw [hn]; rfl
    have key : runEpochs cfg m g (e + 1) s =
        if cfg.maxIters ≤ (runBatches cfg m g cfg.batchesPerEpoch 0 s).iterNum
        then runBatches cfg m g cfg.batchesPerEpoch 0 s
        else runEpochs cfg m g e (runBatches cfg m g cfg.batchesPerEpoch 0 s) := by
      rw [runEpochs_succ]
      show (if (runBatches cfg m g cfg.batchesPerEpoch 0 s).lrFailedAt.isSome
        then _ else _) = _
      rw [hfail]
      simp only [Bool.false_eq_true, if_false]
    rw [key]
    by_cases hK : cfg.maxIters ≤ (runBatches cfg m g cfg.batchesPerEpoch 0 s).iterNum
    · rw [if_pos hK]
      refine ⟨?_, hn⟩
      rw [hi] at hK ⊢
      have hsm : (e + 1) * cfg.batchesPerEpoch =
          e * cfg.batchesPerEpoch + cfg.batchesPerEpoch := by ring
      omega
    · rw [if_neg hK]
      have hlt : (runBatches cfg m g cfg.batchesPerEpoch 0 s).iterNum <
          cfg.maxIters := by omega
      have hiter : (runBatches cfg m g cfg.batchesPerEpoch 0 s).iterNum =
          s.iterNum + cfg.batchesPerEpoch := by rw [hi]; omega
      have := ih (runBatches cfg m g cfg.batchesPerEpoch 0 s) hn hlt
      rw [hiter] at this
      have harith : s.iterNum + cfg.batchesPerEpoch + e * cfg.batchesPerEpoch =
          s.iterNum + (e + 1) * cfg.batchesPerEpoch := by
        rw [Nat.succ_mul]; omega
      rw [harith] at this
      exact this

/-- Without any alignment assumption: when `max_iters` is positive and
`get_lr` cannot raise, the final global step counter is exactly
`min(maxEpochs * batchesPerEpoch, maxIters)` — both loops stop the moment
the counter reaches `max_iters`. -/
theorem trainRun_iterNum {cfg : TrainConfig} (rank : ℕ) (g : ℕ → ℚ)
    (hWD : cfg.warmupIters ≠ cfg.lrDecayIters) (hK : 0 < cfg.maxIters) :
    (trainRun cfg rank g).iterNum =
      min (cfg.maxEpochs * cfg.batchesPerEpoch) cfg.maxIters := by
  obtain ⟨hi, hn⟩ := runEpochs_iterNum (is_master rank) g hWD cfg.maxEpochs
    (initState (is_master rank)) rfl hK
  have hi' : (runEpochs cfg (is_master rank) g cfg.maxEpochs
      (initState (is_master rank))).iterNum =
      min (cfg.maxEpochs * cfg.batchesPerEpoch) cfg.maxIters := by
    rw [hi]
    show min (0 + cfg.maxEpochs * cfg.batchesPerEpoch) cfg.maxIters = _
    rw [Nat.zero_add]
  have hfail : (runEpochs cfg (is_master rank) g cfg.maxEpochs
      (initState (is_master rank))).lrFailedAt.isSome = false := by
    rw [hn]; rfl
  have hrun : trainRun cfg rank g =
      (let s := runEpochs cfg (is_master rank) g cfg.maxEpochs
        (initState (is_master rank))
       if is_master rank = true then
         { s with finalSaved := true, logCount := s.logCount + 1 }
       else s) := by
    rw [trainRun]
    show (if (runEpochs cfg (is_master rank) g cfg.maxEpochs
        (initState (is_master rank))).lrFailedAt.isSome then _ else _) = _
    rw [hfail]
    simp only [Bool.false_eq_true, if_false]
  rw [hrun]
  show ((if is_master rank = true then _ else _ : TrainState)).iterNum = _
  by_cases hm : is_master rank = true
  · rw [if_pos hm]
    exact hi'
  · rw [if_neg hm]
    exact hi'

/-! ### The applied-gradient log only grows -/

theorem stepBatch_applied_append (cfg : TrainConfig) (m : Bool) (g : ℕ → ℚ)
    (b : ℕ) (s : TrainState) :
    ∃ tl, (stepBatch cfg m g b s).appliedGrads = s.appliedGrads ++ tl := by
  rw [stepBatch]
  by_cases h : lrRaises s.iterNum cfg.warmupIters cfg.lrDecayIters = true
  · rw [if_pos h]
    exact ⟨[], (List.append_nil _).symm⟩
  · rw [if_neg h]
    by_cases hb : (b + 1) % cfg.gradAccumSteps = 0
    · refine ⟨[clipValue cfg.gradClip
        (s.grad + g s.iterNum / (cfg.gradAccumSteps : ℚ))], ?_⟩
      show (if (b + 1) % cfg.gradAccumSteps = 0 then _ else _) = _
      rw [if_pos hb]
    · refine ⟨[], ?_⟩
      show (if (b + 1) % cfg.gradAccumSteps = 0 then _ else _) = _
      rw [if_neg hb, List.append_nil]

theorem runBatches_applied_append (cfg : TrainConfig) (m : Bool) (g : ℕ → ℚ) :
    ∀ (n b : ℕ) (s : TrainState),
      ∃ tl, (runBatches cfg m g n b s).appliedGrads = s.appliedGrads ++ tl := by
  intro n
  induction n with
  | zero => exact fun b s => ⟨[], (List.append_nil _).symm⟩
  | succ n ih =>
    intro b s
    obtain ⟨t1, h1⟩ := stepBatch_applied_append cfg m g b s
    rw [runBatches_succ]
    show ∃ tl, (if (stepBatch cfg m g b s).lrFailedAt.isSome then stepBatch cfg m g b s
      else if cfg.maxIters ≤ (stepBatch cfg m g b s).iterNum then stepBatch cfg m g b s
      else runBatches cfg m g n (b + 1) (stepBatch cfg m g b s)).appliedGrads =
      s.appliedGrads ++ tl
    by_cases hf : (stepBatch cfg m g b s).lrFailedAt.isSome = true
    · rw [if_pos hf]
      exact ⟨t1, h1⟩
    · rw [if_neg hf]
      by_cases hK : cfg.maxIters ≤ (stepBatch cfg m g b s).iterNum
      · rw [if_pos hK]
        exact ⟨t1, h1⟩
      · rw [if_neg hK]
        obtain ⟨t2, h2⟩ := ih (b + 1) (stepBatch cfg m g b s)
        exact ⟨t1 ++ t2, by rw [h2, h1, List.append_assoc]⟩

theorem runEpochs_applied_append (cfg : TrainConfig) (m : Bool) (g : ℕ → ℚ) :
    ∀ (e : ℕ) (s : TrainState),
      ∃ tl, (runEpochs cfg m g e s).appliedGrads = s.appliedGrads ++ tl := by
  intro e
  induction e with
  | zero => exact fun s => ⟨[], (List.append_nil _).symm⟩
  | succ e ih =>
    intro s
    obtain ⟨t1, h1⟩ := runBatches_applied_append cfg m g cfg.batchesPerEpoch 0 s
    rw [runEpochs_succ]
    show ∃ tl, (if (runBatches cfg m g cfg.batchesPerEpoch 0 s).lrFailedAt.isSome
      then runBatches cfg m g cfg.batchesPerEpoch 0 s
      else if cfg.maxIters ≤ (runBatches cfg m g cfg.batchesPerEpoch 0 s).iterNum
      then runBatches cfg m g cfg.batchesPerEpoch 0 s
      else runEpochs cfg m g e (runBatches cfg m g cfg.batchesPerEpoch 0 s)).appliedGrads
      = s.appliedGrads ++ tl
    by_cases hf : (runBatches cfg m g cfg.batchesPerEpoch 0 s).lrFailedAt.isSome = true
    · rw [if_pos hf]
      exact ⟨t1, h1⟩
    · rw [if_neg hf]
      by_cases hK : cfg.maxIters ≤ (runBatches cfg m g cfg.batchesPerEpoch 0 s).iterNum
      · rw [if_pos hK]
        exact ⟨t1, h1⟩
      · rw [if_neg hK]
        obtain ⟨t2, h2⟩ := ih (runBatches cfg m g cfg.batchesPerEpoch 0 s)
        exact ⟨t1 ++ t2, by rw [h2, h1, List.append_assoc]⟩

/-! ### The first optimizer update of an epoch, from an arbitrary carried-over
accumulator -/

/-- Processing an epoch that has at least `gradAccumSteps` batches left, from
batch index `b` with `b + (j+1) = gradAccumSteps`: the first boundary fires
after `j+1` more batches and hands the optimizer whatever the accumulator
carried in, plus the scaled gradients of those `j+1` batches.  This holds for
any entry state, in particular one whose `grad` holds an uncleared partial
window from the previous epoch. -/
theorem runBatches_first_boundary {cfg : TrainConfig} (m : Bool) (g : ℕ → ℚ)
    (hWD : cfg.warmupIters ≠ cfg.lrDecayIters) :
    ∀ (j n b : ℕ) (s : TrainState),
      s.lrFailedAt = none →
      b + (j + 1) = cfg.gradAccumSteps →
      s.iterNum + (j + 1) ≤ cfg.maxIters →
      ∃ tl, (runBatches cfg m g ((j + 1) + n) b s).appliedGrads =
        s.appliedGrads ++
          clipValue cfg.gradClip
            (s.grad + ∑ i ∈ Finset.Ico s.iterNum (s.iterNum + (j + 1)),
              g i / (cfg.gradAccumSteps : ℚ)) :: tl := by
  intro j
  induction j with
  | zero =>
    intro n b s h0 hb hK
    have hsum : ∑ i ∈ Finset.Ico s.iterNum (s.iterNum + (0 + 1)),
        g i / (cfg.gradAccumSteps : ℚ) = g s.iterNum / (cfg.gradAccumSteps : ℚ) := by
      rw [Nat.zero_add, Finset.sum_Ico_succ_top (Nat.le_refl _), Finset.Ico_self,
        Finset.sum_empty, zero_add]
    have hboundary : (b + 1) % cfg.gradAccumSteps = 0 := by
      rw [Nat.zero_add] at hb
      rw [hb, Nat.mod_self]
    have happ : (stepBatch cfg m g b s).appliedGrads =
        s.appliedGrads ++ [clipValue cfg.gradClip
          (s.grad + g s.iterNum / (cfg.gradAccumSteps : ℚ))] := by
      rw [stepBatch_eq hWD]
      show (if (b + 1) % cfg.gradAccumSteps = 0 then _ else _) = _
      rw [if_pos hboundary]
    have hs1none : (stepBatch cfg m g b s).lrFailedAt = none := by
      rw [stepBatch_eq hWD]; exact h0
    have hfail : (stepBatch cfg m g b s).lrFailedAt.isSome = false := by
      rw [hs1none]; rfl
    have h01 : (0 + 1) + n = n + 1 := by omega
    rw [h01, runBatches_succ]
    show ∃ tl, (if (stepBatch cfg m g b s).lrFailedAt.isSome then stepBatch cfg m g b s
      else if cfg.maxIters ≤ (stepBatch cfg m g b s).iterNum then stepBatch cfg m g b s
      else runBatches cfg m g n (b + 1) (stepBatch cfg m g b s)).appliedGrads = _
    rw [hfail]
    simp only [Bool.false_eq_true, if_false]
    rw [hsum]
    by_cases hKs : cfg.maxIters ≤ (stepBatch cfg m g b s).iterNum
    · rw [if_pos hKs, happ]
      exact ⟨[], rfl⟩
    · rw [if_neg hKs]
      obtain ⟨t2, h2⟩ := runBatches_applied_append cfg m g n (b + 1)
        (stepBatch cfg m g b s)
      rw [h2, happ, List.append_assoc]
      exact ⟨t2, rfl⟩
  | succ j ih =>
    intro n b s h0 hb hK
    have hmid : (b + 1) % cfg.gradAccumSteps = b + 1 := by
      apply Nat.mod_eq_of_lt
      omega
    have hnotb : ¬ (b + 1) % cfg.gradAccumSteps = 0 := by
      rw [hmid]; omega
    have hs1iter : (stepBatch cfg m g b s).iterNum = s.iterNum + 1 := by
      rw [stepBatch_eq hWD]
    have hs1none : (stepBatch cfg m g b s).lrFailedAt = none := by
      rw [stepBatch_eq hWD]; exact h0
    have hs1grad : (stepBatch cfg m g b s).grad =
        s.grad + g s.iterNum / (cfg.gradAccumSteps : ℚ) := by
      rw [stepBatch_eq hWD]
      show (if (b + 1) % cfg.gradAccumSteps = 0 then _ else _) = _
      rw [if_neg hnotb]
    have hs1app : (stepBatch cfg m g b s).appliedGrads = s.appliedGrads := by
      rw [stepBatch_eq hWD]
      show (if (b + 1) % cfg.gradAccumSteps = 0 then _ else _) = _
      rw [if_neg hnotb]
    have hfail : (stepBatch cfg m g b s).lrFailedAt.isSome = false := by
      rw [hs1none]; rfl
    have hrec : (j + 1 + 1) + n = ((j + 1) + n) + 1 := by omega
    rw [hrec, runBatches_succ]
    show ∃ tl, (if (stepBatch cfg m g b s).lrFailedAt.isSome then stepBatch cfg m g b s
      else if cfg.maxIters ≤ (stepBatch cfg m g b s).iterNum then stepBatch cfg m g b s
      else runBatches cfg m g ((j + 1) + n) (b + 1) (stepBatch cfg m g b s)).appliedGrads
      = _
    rw [hfail]
    simp only [Bool.false_eq_true, if_false]
    have hKlt : ¬ cfg.maxIters ≤ (stepBatch cfg m g b s).iterNum := by
      rw [hs1iter]; omega
    rw [if_neg hKlt]
    obtain ⟨tl, htl⟩ := ih n (b + 1) (stepBatch cfg m g b s) hs1none
      (by omega) (by rw [hs1iter]; omega)
    refine ⟨tl, ?_⟩
    rw [htl, hs1app, hs1grad, hs1iter]
    have hidx : s.iterNum + 1 + (j + 1) = s.iterNum + (j + 1 + 1) := by omega
    have hbot : ∑ i ∈ Finset.Ico s.iterNum (s.iterNum + (j + 1 + 1)),
        g i / (cfg.gradAccumSteps : ℚ) =
        g s.iterNum / (cfg.gradAccumSteps : ℚ) +
          ∑ i ∈ Finset.Ico (s.iterNum + 1) (s.iterNum + (j + 1 + 1)),
            g i / (cfg.gradAccumSteps : ℚ) :=
      Finset.sum_eq_sum_Ico_succ_bot (by omega) _
    rw [hidx, hbot, add_assoc]

/-! ### Non-master processes perform no observable I/O -/

theorem stepBatch_nonmaster (cfg : TrainConfig) (g : ℕ → ℚ) (b : ℕ)
    (s : TrainState) :
    (stepBatch cfg false g b s).checkpoints = s.checkpoints ∧
    (stepBatch cfg false g b s).logCount = s.logCount ∧
    (stepBatch cfg false g b s).finalSaved = s.finalSaved := by
  rw [stepBatch]
  by_cases h : lrRaises s.iterNum cfg.warmupIters cfg.lrDecayIters = true
  · rw [if_pos h]
    exact ⟨rfl, rfl, rfl⟩
  · rw [if_neg h]
    refine ⟨?_, ?_, rfl⟩ <;> simp

theorem runBatches_nonmaster (cfg : TrainConfig) (g : ℕ → ℚ) :
    ∀ (n b : ℕ) (s : TrainState),
      (runBatches cfg false g n b s).checkpoints = s.checkpoints ∧
      (runBatches cfg false g n b s).logCount = s.logCount ∧
      (runBatches cfg false g n b s).finalSaved = s.finalSaved := by
  intro n
  induction n with
  | zero => exact fun b s => ⟨rfl, rfl, rfl⟩
  | succ n ih =>
    intro b s
    obtain ⟨hc, hl, hf⟩ := stepBatch_nonmaster cfg g b s
    rw [runBatches_succ]
    show (if (stepBatch cfg false g b s).lrFailedAt.isSome then stepBatch cfg false g b s
      else if cfg.maxIters ≤ (stepBatch cfg false g b s).iterNum
      then stepBatch cfg false g b s
      else runBatches cfg false g n (b + 1) (stepBatch cfg false g b s)).checkpoints
      = s.checkpoints ∧ _ ∧ _
    by_cases hx : (stepBatch cfg false g b s).lrFailedAt.isSome = true
    · rw [if_pos hx]
      exact ⟨hc, hl, hf⟩
    · rw [if_neg hx]
      by_cases hK : cfg.maxIters ≤ (stepBatch cfg false g b s).iterNum
      · rw [if_pos hK]
        exact ⟨hc, hl, hf⟩
      · rw [if_neg hK]
        obtain ⟨hc2, hl2, hf2⟩ := ih (b + 1) (stepBatch cfg false g b s)
        exact ⟨by rw [hc2, hc], by rw [hl2, hl], by rw [hf2, hf]⟩

theorem runEpochs_nonmaster (cfg : TrainConfig) (g : ℕ → ℚ) :
    ∀ (e : ℕ) (s : TrainState),
      (runEpochs cfg false g e s).checkpoints = s.checkpoints ∧
      (runEpochs cfg false g e s).logCount = s.logCount ∧
      (runEpochs cfg false g e s).finalSaved = s.finalSaved := by
  intro e
  induction e with
  | zero => exact fun s => ⟨rfl, rfl, rfl⟩
  | succ e ih =>
    intro s
    obtain ⟨hc, hl, hf⟩ := runBatches_nonmaster cfg g cfg.batchesPerEpoch 0 s
    rw [runEpochs_succ]
    show (if (runBatches cfg false g cfg.batchesPerEpoch 0 s).lrFailedAt.isSome
      then runBatches cfg false g cfg.batchesPerEpoch 0 s
      else if cfg.maxIters ≤ (runBatches cfg false g cfg.batchesPerEpoch 0 s).iterNum
      then runBatches cfg false g cfg.batchesPerEpoch 0 s
      else runEpochs cfg false g e
        (runBatches cfg false g cfg.batchesPerEpoch 0 s)).checkpoints
      = s.checkpoints ∧ _ ∧ _
    by_cases hx : (runBatches cfg false g cfg.batchesPerEpoch 0 s).lrFailedAt.isSome = true
    · rw [if_pos hx]
      exact ⟨hc, hl, hf⟩
    · rw [if_neg hx]
      by_cases hK : cfg.maxIters ≤ (runBatches cfg false g cfg.batchesPerEpoch 0 s).iterNum
      · rw [if_pos hK]
        exact ⟨hc, hl, hf⟩
      · rw [if_neg hK]
        obtain ⟨hc2, hl2, hf2⟩ := ih (runBatches cfg false g cfg.batchesPerEpoch 0 s)
        exact ⟨by rw [hc2, hc], by rw [hl2, hl], by rw [hf2, hf]⟩

/-! ### A `warmup_iters = lr_decay_iters` configuration crashes at runtime -/

/-- With `warmup_iters = lr_decay_iters = W`, the inner loop runs normally as
long as every processed step index stays below `W`. -/
theorem runBatches_normal_below_W {cfg : TrainConfig}
    (hW : cfg.warmupIters = cfg.lrDecayIters) (m : Bool) (g : ℕ → ℚ) :
    ∀ (n b : ℕ) (s : TrainState),
      s.lrFailedAt = none →
      s.iterNum + n ≤ cfg.warmupIters →
      cfg.warmupIters < cfg.maxIters →
      (runBatches cfg m g n b s).lrFailedAt = none ∧
      (runBatches cfg m g n b s).iterNum = s.iterNum + n ∧
      (runBatches cfg m g n b s).finalSaved = s.finalSaved := by
  intro n
  induction n with
  | zero =>
    intro b s h0 _ _
    exact ⟨h0, rfl, rfl⟩
  | succ n ih =>
    intro b s h0 hn hK
    have hraise : lrRaises s.iterNum cfg.warmupIters cfg.lrDecayIters = false := by
      rw [← hW]
      exact lrRaises_lt s.iterNum (by omega)
    have hs1iter : (stepBatch cfg m g b s).iterNum = s.iterNum + 1 := by
      rw [stepBatch_eq_of_noraise hraise]
    have hs1none : (stepBatch cfg m g b s).lrFailedAt = none := by
      rw [stepBatch_eq_of_noraise hraise]; exact h0
    have hs1final : (stepBatch cfg m g b s).finalSaved = s.finalSaved := by
      rw [stepBatch_eq_of_noraise hraise]
    have hKlt : ¬ cfg.maxIters ≤ (stepBatch cfg m g b s).iterNum := by
      rw [hs1iter]; omega
    have key : runBatches cfg m g (n + 1) b s =
        runBatches cfg m g n (b + 1) (stepBatch cfg m g b s) := by
      rw [runBatches_succ]
      show (if (stepBatch cfg m g b s).lrFailedAt.isSome then stepBatch cfg m g b s
        else if cfg.maxIters ≤ (stepBatch cfg m g b s).iterNum then stepBatch cfg m g b s
        else runBatches cfg m g n (b + 1) (stepBatch cfg m g b s)) = _
      rw [if_neg (by rw [hs1none]; exact Bool.false_ne_true), if_neg hKlt]
    rw [key]
    obtain ⟨ha, hb2, hc⟩ := ih (b + 1) (stepBatch cfg m g b s) hs1none
      (by rw [hs1iter]; omega) hK
    refine ⟨ha, ?_, by rw [hc, hs1final]⟩
    rw [hb2, hs1iter]
    omega

/-- With `warmup_iters = lr_decay_iters = W`, once enough batches remain to
reach step `W`, the inner loop stops with a recorded `ZeroDivisionError`
at step `W`, without re-incrementing the counter. -/
theorem runBatches_freeze_at_W {cfg : TrainConfig}
    (hW : cfg.warmupIters = cfg.lrDecayIters) (m : Bool) (g : ℕ → ℚ) :
    ∀ (n b : ℕ) (s : TrainState),
      s.lrFailedAt = none →
      s.iterNum ≤ cfg.warmupIters →
      cfg.warmupIters < s.iterNum + n →
      cfg.warmupIters < cfg.maxIters →
      (runBatches cfg m g n b s).lrFailedAt = some cfg.warmupIters ∧
      (runBatches cfg m g n b s).iterNum = cfg.warmupIters ∧
      (runBatches cfg m g n b s).finalSaved = s.finalSaved := by
  intro n
  induction n with
  | zero =>
    intro b s _ h1 h2 _
    omega
  | succ n ih =>
    intro b s h0 h1 h2 hK
    by_cases hat : s.iterNum = cfg.warmupIters
    · have hraise : lrRaises s.iterNum cfg.warmupIters cfg.lrDecayIters = true := by
        rw [← hW, hat]
        exact lrRaises_self cfg.warmupIters
      have hstep : stepBatch cfg m g b s = { s with lrFailedAt := some s.iterNum } := by
        rw [stepBatch, if_pos hraise]
      have hfail : (stepBatch cfg m g b s).lrFailedAt.isSome = true := by
        rw [hstep]; rfl
      have key : runBatches cfg m g (n + 1) b s = stepBatch cfg m g b s := by
        rw [runBatches_succ]
        show (if (stepBatch cfg m g b s).lrFailedAt.isSome then stepBatch cfg m g b s
          else if cfg.maxIters ≤ (stepBatch cfg m g b s).iterNum
          then stepBatch cfg m g b s
          else runBatches cfg m g n (b + 1) (stepBatch cfg m g b s)) = _
        rw [if_pos hfail]
      rw [key, hstep]
      exact ⟨by rw [hat], by rw [hat], rfl⟩
    · have hlt : s.iterNum < cfg.warmupIters := by omega
      have hraise : lrRaises s.iterNum cfg.warmupIters cfg.lrDecayIters = false := by
        rw [← hW]
        exact lrRaises_lt s.iterNum hlt
      have hs1iter : (stepBatch cfg m g b s).iterNum = s.iterNum + 1 := by
        rw [stepBatch_eq_of_noraise hraise]
      have hs1none : (stepBatch cfg m g b s).lrFailedAt = none := by
        rw [stepBatch_eq_of_noraise hraise]; exact h0
      have hs1final : (stepBatch cfg m g b s).finalSaved = s.finalSaved := by
        rw [stepBatch_eq_of_noraise hraise]
      have hKlt : ¬ cfg.maxIters ≤ (stepBatch cfg m g b s).iterNum := by
        rw [hs1iter]; omega
      have key : runBatches cfg m g (n + 1) b s =
          runBatches cfg m g n (b + 1) (stepBatch cfg m g b s) := by
        rw [runBatches_succ]
        show (if (stepBatch cfg m g b s).lrFailedAt.isSome then stepBatch cfg m g b s
          else if cfg.maxIters ≤ (stepBatch cfg m g b s).iterNum
          then stepBatch cfg m g b s
          else runBatches cfg m g n (b + 1) (stepBatch cfg m g b s)) = _
        rw [if_neg (by rw [hs1none]; exact Bool.false_ne_true), if_neg hKlt]
      rw [key]
      obtain ⟨ha, hb2, hc⟩ := ih (b + 1) (stepBatch cfg m g b s) hs1none
        (by rw [hs1iter]; omega) (by rw [hs1iter]; omega) hK
      exact ⟨ha, hb2, by rw [hc, hs1final]⟩

/-- With `warmup_iters = lr_decay_iters = W`, once enough total batches exist
to reach step `W`, the epoch loop ends with the recorded error at step `W`. -/
theorem runEpochs_freeze_at_W {cfg : TrainConfig}
    (hW : cfg.warmupIters = cfg.lrDecayIters) (m : Bool) (g : ℕ → ℚ) :
    ∀ (e : ℕ) (s : TrainState),
      s.lrFailedAt = none →
      s.iterNum ≤ cfg.warmupIters →
      cfg.warmupIters < s.iterNum + e * cfg.batchesPerEpoch →
      cfg.warmupIters < cfg.maxIters →
      (runEpochs cfg m g e s).lrFailedAt = some cfg.warmupIters ∧
      (runEpochs cfg m g e s).iterNum = cfg.warmupIters ∧
      (runEpochs cfg m g e s).finalSaved = s.finalSaved := by
  intro e
  induction e with
  | zero =>
    intro s _ h1 h2 _
    rw [Nat.zero_mul] at h2
    omega
  | succ e ih =>
    intro s h0 h1 h2 hK
    by_cases hin : cfg.warmupIters < s.iterNum + cfg.batchesPerEpoch
    · obtain ⟨ha, hb2, hc⟩ := runBatches_freeze_at_W hW m g cfg.batchesPerEpoch 0 s
        h0 h1 hin hK
      have hfail : (runBatches cfg m g cfg.batchesPerEpoch 0 s).lrFailedAt.isSome
          = true := by rw [ha]; rfl
      have key : runEpochs cfg m g (e + 1) s =
          runBatches cfg m g cfg.batchesPerEpoch 0 s := by
        rw [runEpochs_succ]
        show (if (runBatches cfg m g cfg.batchesPerEpoch 0 s).lrFailedAt.isSome
          then runBatches cfg m g cfg.batchesPerEpoch 0 s
          else if cfg.maxIters ≤ (runBatches cfg m g cfg.batchesPerEpoch 0 s).iterNum
          then runBatches cfg m g cfg.batchesPerEpoch 0 s
          else runEpochs cfg m g e
            (runBatches cfg m g cfg.batchesPerEpoch 0 s)) = _
        rw [if_pos hfail]
      rw [key]
      exact ⟨ha, hb2, hc⟩
    · obtain ⟨ha, hb2, hc⟩ := runBatches_normal_below_W hW m g cfg.batchesPerEpoch 0 s
        h0 (by omega) hK
      have hKlt : ¬ cfg.maxIters ≤ (runBatches cfg m g cfg.batchesPerEpoch 0 s).iterNum := by
        rw [hb2]; omega
      have key : runEpochs cfg m g (e + 1) s =
          runEpochs cfg m g e (runBatches cfg m g cfg.batchesPerEpoch 0 s) := by
        rw [runEpochs_succ]
        show (if (runBatches cfg m g cfg.batchesPerEpoch 0 s).lrFailedAt.isSome
          then runBatches cfg m g cfg.batchesPerEpoch 0 s
          else if cfg.maxIters ≤ (runBatches cfg m g cfg.batchesPerEpoch 0 s).iterNum
          then runBatches cfg m g cfg.batchesPerEpoch 0 s
          else runEpochs cfg m g e
            (runBatches cfg m g cfg.batchesPerEpoch 0 s)) = _
        rw [if_neg (by rw [ha]; exact Bool.false_ne_true), if_neg hKlt]
      rw [key]
      obtain ⟨ha2, hb3, hc2⟩ := ih (runBatches cfg m g cfg.batchesPerEpoch 0 s) ha
        (by rw [hb2]; omega)
        (by rw [hb2]
            have : (e + 1) * cfg.batchesPerEpoch =
              e * cfg.batchesPerEpoch + cfg.batchesPerEpoch := by ring
            omega)
        hK
      exact ⟨ha2, hb3, by rw [hc2, hc]⟩

/-- With `warmup_iters = lr_decay_iters = W`, `W < max_iters`, and enough
total batches to reach step `W`: `train` performs steps `0..W-1` normally and
then aborts with the `ZeroDivisionError` raised inside `get_lr` at step `W`;
in particular the final model is never saved. -/
theorem trainRun_freeze {cfg : TrainConfig} (rank : ℕ) (g : ℕ → ℚ)
    (hW : cfg.warmupIters = cfg.lrDecayIters)
    (hK : cfg.warmupIters < cfg.maxIters)
    (hE : cfg.warmupIters < cfg.maxEpochs * cfg.batchesPerEpoch) :
    (trainRun cfg rank g).lrFailedAt = some cfg.warmupIters ∧
    (trainRun cfg rank g).iterNum = cfg.warmupIters ∧
    (trainRun cfg rank g).finalSaved = false := by
  obtain ⟨ha, hb, hc⟩ := runEpochs_freeze_at_W hW (is_master rank) g cfg.maxEpochs
    (initState (is_master rank)) rfl (Nat.zero_le _)
    (by show cfg.warmupIters < 0 + cfg.maxEpochs * cfg.batchesPerEpoch; omega) hK
  have hfail : (runEpochs cfg (is_master rank) g cfg.maxEpochs
      (initState (is_master rank))).lrFailedAt.isSome = true := by
    rw [ha]; rfl
  have key : trainRun cfg rank g =
      runEpochs cfg (is_master rank) g cfg.maxEpochs (initState (is_master rank)) := by
    rw [trainRun]
    show (if (runEpochs cfg (is_master rank) g cfg.maxEpochs
      (initState (is_master rank))).lrFailedAt.isSome then _ else _) = _
    rw [if_pos hfail]
  rw [key]
  exact ⟨ha, hb, by rw [hc]; rfl⟩

/-- A process with nonzero rank produces no checkpoint files, no console
output, and no final model, over the whole run. -/
theorem trainRun_nonmaster {cfg : TrainConfig} (rank : ℕ) (g : ℕ → ℚ)
    (hr : rank ≠ 0) :
    (trainRun cfg rank g).checkpoints = [] ∧
    (trainRun cfg rank g).logCount = 0 ∧
    (trainRun cfg rank g).finalSaved = false := by
  have hm : is_master rank = false := by
    rw [is_master]
    exact beq_eq_false_iff_ne.mpr hr
  obtain ⟨hc, hl, hf⟩ := runEpochs_nonmaster cfg g cfg.maxEpochs (initState false)
  have hinit : trainRun cfg rank g =
      (let s := runEpochs cfg false g cfg.maxEpochs (initState false)
       if s.lrFailedAt.isSome then s
       else if false = true then { s with finalSaved := true, logCount := s.logCount + 1 }
       else s) := by
    rw [trainRun, hm]
  rw [hinit]
  by_cases hx : (runEpochs cfg false g cfg.maxEpochs (initState false)).lrFailedAt.isSome = true
  · show ((if (runEpochs cfg false g cfg.maxEpochs (initState false)).lrFailedAt.isSome
      then _ else _ : TrainState)).checkpoints = [] ∧ _ ∧ _
    rw [if_pos hx]
    exact ⟨hc, hl, hf⟩
  · show ((if (runEpochs cfg false g cfg.maxEpochs (initState false)).lrFailedAt.isSome
      then _ else _ : TrainState)).checkpoints = [] ∧ _ ∧ _
    rw [if_neg hx, if_neg (Bool.false_ne_true)]
    exact ⟨hc, hl, hf⟩

theorem runEpochs_succ_applied (cfg : TrainConfig) (m : Bool) (g : ℕ → ℚ)
    (e : ℕ) (s : TrainState) :
    ∃ tl, (runEpochs cfg m g (e + 1) s).appliedGrads =
      (runBatches cfg m g cfg.batchesPerEpoch 0 s).appliedGrads ++ tl := by
  rw [runEpochs_succ]
  show ∃ tl, (if (runBatches cfg m g cfg.batchesPerEpoch 0 s).lrFailedAt.isSome
    then runBatches cfg m g cfg.batchesPerEpoch 0 s
    else if cfg.maxIters ≤ (runBatches cfg m g cfg.batchesPerEpoch 0 s).iterNum
    then runBatches cfg m g cfg.batchesPerEpoch 0 s
    else runEpochs cfg m g e (runBatches cfg m g cfg.batchesPerEpoch 0 s)).appliedGrads
    = _ ++ tl
  by_cases hx : (runBatches cfg m g cfg.batchesPerEpoch 0 s).lrFailedAt.isSome = true
  · rw [if_pos hx]
    exact ⟨[], (List.append_nil _).symm⟩
  · rw [if_neg hx]
    by_cases hK : cfg.maxIters ≤ (runBatches cfg m g cfg.batchesPerEpoch 0 s).iterNum
    · rw [if_pos hK]
      exact ⟨[], (List.append_nil _).symm⟩
    · rw [if_neg hK]
      exact runEpochs_applied_append cfg m g e _

theorem trainRun_applied (cfg : TrainConfig) (rank : ℕ) (g : ℕ → ℚ) :
    (trainRun cfg rank g).appliedGrads =
      (runEpochs cfg (is_master rank) g cfg.maxEpochs
        (initState (is_master rank))).appliedGrads := by
  rw [trainRun]
  show (if (runEpochs cfg (is_master rank) g cfg.maxEpochs
      (initState (is_master rank))).lrFailedAt.isSome then _
    else if is_master rank = true then _ else _ : TrainState).appliedGrads = _
  by_cases hx : (runEpochs cfg (is_master rank) g cfg.maxEpochs
      (initState (is_master rank))).lrFailedAt.isSome = true
  · rw [if_pos hx]
  · rw [if_neg hx]
    by_cases hm : is_master rank = true
    · rw [if_pos hm]
    · rw [if_neg hm]

/-- The initial state satisfies the window invariants at step 0. -/
theorem initState_grad (g : ℕ → ℚ) (N : ℕ) (m : Bool) :
    (initState m).grad = pendingGrad g N 0 := by
  show (0 : ℚ) = pendingGrad g N 0
  rw [pendingGrad, Nat.zero_div, Nat.mul_zero, Finset.Ico_self, Finset.sum_empty]

theorem initState_applied (g : ℕ → ℚ) (N : ℕ) (c : ℚ) (m : Bool) :
    (initState m).appliedGrads = appliedWindows g N c 0 := by
  show ([] : List ℚ) = appliedWindows g N c 0
  rw [appliedWindows, Nat.zero_div, List.range_zero, List.map_nil]

/-- The epoch-boundary gradient leak: when an epoch's batch count `B` is not
a multiple of `N = gradAccumSteps`, the `B/N` completed windows of epoch 0
leave `B mod N` scaled micro-gradients in the accumulator; the first
optimizer update of epoch 1 (the update with index `B/N`, counting from 0)
applies those together with the first `N` micro-gradients of epoch 1. -/
theorem trainRun_epoch_leak {cfg : TrainConfig} (rank : ℕ) (g : ℕ → ℚ)
    (hWD : cfg.warmupIters ≠ cfg.lrDecayIters)
    (hN : 1 ≤ cfg.gradAccumSteps)
    (hNB : cfg.gradAccumSteps ≤ cfg.batchesPerEpoch)
    (hE : 2 ≤ cfg.maxEpochs)
    (hKge : cfg.batchesPerEpoch + cfg.gradAccumSteps ≤ cfg.maxIters) :
    (trainRun cfg rank g).appliedGrads[cfg.batchesPerEpoch / cfg.gradAccumSteps]? =
      some (clipValue cfg.gradClip
        (∑ i ∈ Finset.Ico
          (cfg.batchesPerEpoch - cfg.batchesPerEpoch % cfg.gradAccumSteps)
          (cfg.batchesPerEpoch + cfg.gradAccumSteps),
          g i / (cfg.gradAccumSteps : ℚ))) := by
  set m := is_master rank with hm
  set N := cfg.gradAccumSteps with hNdef
  set B := cfg.batchesPerEpoch with hBdef
  set K := cfg.maxIters with hKdef
  obtain ⟨e, hEeq⟩ : ∃ e, cfg.maxEpochs = e + 2 := ⟨cfg.maxEpochs - 2, by omega⟩
  -- epoch 0 runs fully and aligned
  obtain ⟨hi1, hn1, hg1, ha1⟩ := runBatches_inv m g hWD B 0 (initState m)
    rfl (by show 0 < K; omega) rfl (initState_grad g N m)
    (initState_applied g N cfg.gradClip m)
  have hi1' : (runBatches cfg m g B 0 (initState m)).iterNum = B := by
    rw [hi1]
    show min (0 + B) K = B
    omega
  -- unfold the first epoch
  have key : runEpochs cfg m g cfg.maxEpochs (initState m) =
      runEpochs cfg m g (e + 1) (runBatches cfg m g B 0 (initState m)) := by
    rw [hEeq, runEpochs_succ]
    show (if (runBatches cfg m g B 0 (initState m)).lrFailedAt.isSome
      then runBatches cfg m g B 0 (initState m)
      else if K ≤ (runBatches cfg m g B 0 (initState m)).iterNum
      then runBatches cfg m g B 0 (initState m)
      else runEpochs cfg m g (e + 1) (runBatches cfg m g B 0 (initState m))) = _
    rw [if_neg (by rw [hn1]; exact Bool.false_ne_true),
      if_neg (by rw [hi1']; omega)]
  -- the second epoch appends, first of all, the leaked window
  obtain ⟨tl2, htl2⟩ := runEpochs_succ_applied cfg m g e
    (runBatches cfg m g B 0 (initState m))
  obtain ⟨tl1, htl1⟩ := runBatches_first_boundary m g hWD (N - 1) (B - N) 0
    (runBatches cfg m g B 0 (initState m)) hn1 (by omega) (by rw [hi1']; omega)
  have hfuel : (N - 1 + 1) + (B - N) = B := by omega
  rw [hfuel] at htl1
  have hNsucc : N - 1 + 1 = N := by omega
  rw [hNsucc, hi1'] at htl1
  -- the leaked value
  have hstart : N * (B / N) = B - B % N := by
    have := Nat.div_add_mod B N
    omega
  have hleak : (runBatches cfg m g B 0 (initState m)).grad +
      ∑ i ∈ Finset.Ico B (B + N), g i / (N : ℚ) =
      ∑ i ∈ Finset.Ico (B - B % N) (B + N), g i / (N : ℚ) := by
    rw [hg1, hi1', pendingGrad, hstart]
    exact Finset.sum_Ico_consecutive _ (by omega) (by omega)
  -- the position of the leaked update
  have hlen : (runBatches cfg m g B 0 (initState m)).appliedGrads.length = B / N := by
    rw [ha1, hi1', appliedWindows, List.length_map, List.length_range]
  -- assemble
  rw [trainRun_applied, key, htl2, htl1, hleak, List.append_assoc, List.cons_append]
  rw [List.getElem?_append_right (by rw [hlen])]
  rw [hlen]
  simp only [Nat.sub_self, List.getElem?_cons_zero]

/-! ### The learning-rate schedule (`src/train.py` lines 34-41) -/

/-- The schedule `get_lr(it, warmup_iters, learning_rate, lr_decay_iters, min_lr)`: linear
warmup, then cosine decay to `min_lr`, clamped to `min_lr` past
`lr_decay_iters`.  Python float arithmetic is modelled over `ℝ`; the function
is defined (as a real number) exactly on the inputs where the Python code
does not raise, i.e. whenever `lrRaises` is false (see `lrRaises`). -/
noncomputable def get_lr (it warmup_iters : ℕ) (learning_rate : ℝ)
    (lr_decay_iters : ℕ) (min_lr : ℝ) : ℝ :=
  if it < warmup_iters then learning_rate * it / warmup_iters
  else if lr_decay_iters < it then min_lr
  else
    min_lr +
      (1 / 2 * (1 + Real.cos (Real.pi *
        (((it : ℝ) - (warmup_iters : ℝ)) /
          ((lr_decay_iters : ℝ) - (warmup_iters : ℝ)))))) *
        (learning_rate - min_lr)

/-! ### Distributed setup (`src/train.py` lines 18-26) -/

/-- The rank-related environment variables `train.py` consults, each `none`
when absent from `os.environ` (values modelled as already-parsed naturals). -/
structure DistEnv where
  rank : Option ℕ
  world_size : Option ℕ
  local_rank : Option ℕ
deriving DecidableEq

/-- The function `setup_distributed()`: if both `RANK` and `WORLD_SIZE` are present,
return them (with `LOCAL_RANK` defaulting to 0) after initializing the
process group; in every other case return the single-process topology
`(0, 1, 0)`. -/
def setup_distributed (env : DistEnv) : ℕ × ℕ × ℕ :=
  match env.rank, env.world_size with
  | some r, some w => (r, w, env.local_rank.getD 0)
  | _, _ => (0, 1, 0)

/-! ### Checkpoint writing (`src/train.py` lines 146-156) -/

/-- A file-system operation performed while persisting a checkpoint. -/
inductive FsOp where
  | write (path : String)
  | rename (src dst : String)
deriving DecidableEq

/-- The file-system operations of `torch.save(checkpoint, checkpoint_path)`
as invoked at `src/train.py` line 155: a single direct write to the
destination path — no temporary file and no rename. -/
def torch_save_ops (path : String) : List FsOp := [FsOp.write path]

/-- Modelled from the spec: "atomic visibility — the checkpoint is written to
a temporary location and then renamed (or equivalent)".  A save with atomic
visibility never writes the final path directly and makes the final path
appear only through a rename from some temporary path. -/
def atomicVisibility (ops : List FsOp) (finalPath : String) : Prop :=
  (∀ op ∈ ops, op ≠ FsOp.write finalPath) ∧
  (∃ tmp, FsOp.rename tmp finalPath ∈ ops)

/-! ### Checkpoint loading (`src/evaluate.py` lines 27-44) -/

/-- Presence of the optional fields of a checkpoint file that `load_model`
inspects (`"config" in checkpoint`, `"model" in checkpoint`) plus the step
counter field `iter_num`, which `load_model` never inspects at all. -/
structure CheckpointFile where
  hasConfig : Bool
  hasModel : Bool
  hasIterNum : Bool
deriving DecidableEq

/-- Where `load_model` takes the model configuration from. -/
inductive ConfigSource where
  | fromCheckpoint
  | defaults
deriving DecidableEq

/-- Where `load_model` takes the model weights from. -/
inductive WeightsSource where
  | modelField
  | wholeCheckpoint
deriving DecidableEq

/-- The loader `load_model(checkpoint_path, device)`: uses `checkpoint["config"]["model"]`
when a `config` key is present and a default `GPTConfig()` otherwise, and
loads `checkpoint["model"]` when a `model` key is present and otherwise
treats the entire checkpoint as the state dict.  There is no error branch
for a missing field: the result is always `Except.ok`. -/
def load_model (c : CheckpointFile) : Except String (ConfigSource × WeightsSource) :=
  Except.ok
    (if c.hasConfig then ConfigSource.fromCheckpoint else ConfigSource.defaults,
     if c.hasModel then WeightsSource.modelField else WeightsSource.wholeCheckpoint)

/-! ### The dataset (`src/data/dataset.py`) -/

/-- The dataset `TextDataset`: the memory-mapped `uint16` token array (modelled as a list
of naturals) together with the window size. -/
structure TextDataset where
  data : List ℕ
  block_size : ℕ
deriving DecidableEq

/-- Method `__len__`: `len(self.data) // self.block_size`. -/
def TextDataset.numItems (d : TextDataset) : ℕ := d.data.length / d.block_size

/-- Method `__getitem__(idx)`: `chunk = data[idx*block_size : idx*block_size + block_size + 1]`
(a NumPy slice, which truncates at the end of the array), then
`x = chunk[:-1]`, `y = chunk[1:]`. -/
def TextDataset.getItem (d : TextDataset) (idx : ℕ) : List ℕ × List ℕ :=
  let start_idx := idx * d.block_size
  let end_idx := start_idx + d.block_size + 1
  let chunk := (d.data.drop start_idx).take (end_idx - start_idx)
  (chunk.dropLast, chunk.drop 1)

/-! ### Properties of the learning-rate schedule -/

theorem get_lr_zero {W : ℕ} (hW : 0 < W) (lr ml : ℝ) (D : ℕ) :
    get_lr 0 W lr D ml = 0 := by
  rw [get_lr, if_pos hW]
  simp

theorem get_lr_at_warmup {W D : ℕ} (hWD : W < D) (lr ml : ℝ) :
    get_lr W W lr D ml = lr := by
  rw [get_lr, if_neg (lt_irrefl W), if_neg (by omega : ¬ D < W)]
  rw [sub_self, zero_div, mul_zero, Real.cos_zero]
  ring

theorem get_lr_at_decay {W D : ℕ} (hWD : W < D) (lr ml : ℝ) :
    get_lr D W lr D ml = ml := by
  rw [get_lr, if_neg (by omega : ¬ D < W), if_neg (lt_irrefl D)]
  have hne : (D : ℝ) - (W : ℝ) ≠ 0 := by
    have hcast : (W : ℝ) < D := by exact_mod_cast hWD
    linarith
  rw [div_self hne, mul_one, Real.cos_pi]
  ring

theorem get_lr_past_decay {W D it : ℕ} (hWD : W < D) (h : D < it) (lr ml : ℝ) :
    get_lr it W lr D ml = ml := by
  rw [get_lr, if_neg (by omega : ¬ it < W), if_pos h]

theorem get_lr_ramp_mono {W D : ℕ} (hW : 0 < W) (hWD : W < D) {lr ml : ℝ}
    (h0 : 0 ≤ lr) : ∀ i j : ℕ, i ≤ j → j ≤ W →
      get_lr i W lr D ml ≤ get_lr j W lr D ml := by
  intro i j hij hjW
  have hWpos : (0 : ℝ) < W := by exact_mod_cast hW
  rcases Nat.lt_or_ge j W with hj | hj
  · have hi : i < W := lt_of_le_of_lt hij hj
    rw [get_lr, if_pos hi, get_lr, if_pos hj]
    have hcast : (i : ℝ) ≤ j := by exact_mod_cast hij
    gcongr
  · have hjW2 : j = W := le_antisymm hjW hj
    subst hjW2
    rw [get_lr_at_warmup hWD]
    rcases Nat.lt_or_ge i j with hi | hi
    · rw [get_lr, if_pos hi]
      have hcast : (i : ℝ) ≤ j := by exact_mod_cast le_of_lt hi
      calc lr * i / j ≤ lr * j / j := by gcongr
        _ = lr := by field_simp
    · have hieq : i = j := le_antisymm hij hi
      subst hieq
      rw [get_lr_at_warmup hWD]

theorem get_lr_cosine_anti {W D : ℕ} (hWD : W < D) {lr ml : ℝ}
    (hml : ml ≤ lr) : ∀ i j : ℕ, W ≤ i → i ≤ j → j ≤ D →
      get_lr j W lr D ml ≤ get_lr i W lr D ml := by
  intro i j hWi hij hjD
  have hiD : i ≤ D := le_trans hij hjD
  have hWj : W ≤ j := le_trans hWi hij
  rw [get_lr, if_neg (by omega : ¬ j < W), if_neg (by omega : ¬ D < j)]
  rw [get_lr, if_neg (by omega : ¬ i < W), if_neg (by omega : ¬ D < i)]
  have hpos : (0 : ℝ) < (D : ℝ) - (W : ℝ) := by
    have hcast : (W : ℝ) < (D : ℝ) := by exact_mod_cast hWD
    linarith
  have hri0 : 0 ≤ ((i : ℝ) - W) / ((D : ℝ) - W) := by
    apply div_nonneg _ (le_of_lt hpos)
    have hcast : (W : ℝ) ≤ i := by exact_mod_cast hWi
    linarith
  have hrij : ((i : ℝ) - W) / ((D : ℝ) - W) ≤ ((j : ℝ) - W) / ((D : ℝ) - W) := by
    apply div_le_div_of_nonneg_right _ hpos.le
    have hcast : (i : ℝ) ≤ j := by exact_mod_cast hij
    linarith
  have hrj1 : ((j : ℝ) - W) / ((D : ℝ) - W) ≤ 1 := by
    rw [div_le_one hpos]
    have hcast : (j : ℝ) ≤ D := by exact_mod_cast hjD
    linarith
  have hcos : Real.cos (Real.pi * (((j : ℝ) - W) / ((D : ℝ) - W))) ≤
      Real.cos (Real.pi * (((i : ℝ) - W) / ((D : ℝ) - W))) := by
    apply Real.cos_le_cos_of_nonneg_of_le_pi
    · exact mul_nonneg Real.pi_pos.le hri0
    · calc Real.pi * (((j : ℝ) - W) / ((D : ℝ) - W)) ≤ Real.pi * 1 :=
        mul_le_mul_of_nonneg_left hrj1 Real.pi_pos.le
        _ = Real.pi := mul_one _
    · exact mul_le_mul_of_nonneg_left hrij Real.pi_pos.le
  have hsub : 0 ≤ lr - ml := by linarith
  have hcoeff : 1 / 2 * (1 + Real.cos (Real.pi * (((j : ℝ) - W) / ((D : ℝ) - W)))) ≤
      1 / 2 * (1 + Real.cos (Real.pi * (((i : ℝ) - W) / ((D : ℝ) - W)))) := by
    linarith
  have := mul_le_mul_of_nonneg_right hcoeff hsub
  linarith

/-! ## Claims -/

/-- Claim C1, counterexample.  The claim asserts that in *every* run with
`gradient_accumulation_steps = N` the optimizer fires exactly once per `N`
consecutive micro-steps and applies the mean of the `N` micro-step
gradients.  Config: `N = 2`, `batchesPerEpoch = 3`, `maxEpochs = 2`,
`maxIters = 10`, micro-gradients `g i = 2^i`.  The run executes 6
micro-steps but the optimizer fires only twice (not `6 / 2 = 3` times),
because `batch_idx` resets at the epoch boundary; and the second applied
gradient is `14 = (g 2 + g 3 + g 4) / 2`, a three-micro-step accumulation,
not the mean `(g 3 + g 4) / 2 = 12` of the two micro-steps preceding that
update. -/
theorem C1_counterexample :
    (trainRun ⟨2, 10, 2, 3, 1, 100, 0, 10, 0⟩ 0 (fun i => (2 : ℚ) ^ i)).iterNum = 6 ∧
    (trainRun ⟨2, 10, 2, 3, 1, 100, 0, 10, 0⟩ 0 (fun i => (2 : ℚ) ^ i)).appliedGrads
      = [3 / 2, 14] ∧
    (trainRun ⟨2, 10, 2, 3, 1, 100, 0, 10, 0⟩ 0
      (fun i => (2 : ℚ) ^ i)).appliedGrads.length ≠ 6 / 2 ∧
    ((2 : ℚ) ^ 3 + (2 : ℚ) ^ 4) / 2 ≠ 14 := by
  refine ⟨?_, ?_, ?_, by norm_num⟩ <;>
    norm_num [trainRun, runEpochs, runBatches, stepBatch, initState, is_master,
      lrRaises, clipValue]

/-- Claim C1 (amended): provided every epoch's batch count is a multiple of
`N = gradient_accumulation_steps` (so accumulation windows never straddle an
epoch boundary), with positive logging intervals, gradient clipping disabled
and `warmup ≠ decay` (so `get_lr` cannot raise), the run performs exactly
`max_iters` micro-steps, the optimizer fires exactly once per `N`
consecutive micro-steps (`max_iters / N` times in total; a trailing
incomplete window at the `max_iters` cut produces no firing), and the `j`-th
update applies exactly the mean of the `N` micro-step gradients of window
`j` — each micro-step's loss having been divided by `N` before backward. -/
theorem C1_amended {cfg : TrainConfig} (rank : ℕ) (g : ℕ → ℚ)
    (hWD : cfg.warmupIters ≠ cfg.lrDecayIters)
    (_hN : 0 < cfg.gradAccumSteps)
    (hNB : cfg.gradAccumSteps ∣ cfg.batchesPerEpoch)
    (hK : 0 < cfg.maxIters)
    (hKE : cfg.maxIters ≤ cfg.maxEpochs * cfg.batchesPerEpoch)
    (hclip : cfg.gradClip = 0)
    (_hlog : 0 < cfg.logInterval) (_heval : 0 < cfg.evalInterval) :
    (trainRun cfg rank g).iterNum = cfg.maxIters ∧
    (trainRun cfg rank g).appliedGrads =
      (List.range (cfg.maxIters / cfg.gradAccumSteps)).map
        (fun j => (∑ i ∈ Finset.Ico (j * cfg.gradAccumSteps)
          (j * cfg.gradAccumSteps + cfg.gradAccumSteps), g i) /
          (cfg.gradAccumSteps : ℚ)) := by
  obtain ⟨hi, -, -, ha⟩ := trainRun_aligned rank g hWD hNB hK
  have hiK : (trainRun cfg rank g).iterNum = cfg.maxIters := by
    rw [hi]
    omega
  refine ⟨hiK, ?_⟩
  rw [ha, hiK, appliedWindows, hclip]
  apply List.map_congr_left
  intro j _
  rw [clipValue_zero, windowAvg, ← Finset.sum_div]

/-- Claim C1, witness for the amended theorem: `N = 2`, `B = 2`, `E = 2`,
`K = 4`, micro-gradients `g i = i`. -/
theorem C1_witness :
    (trainRun ⟨2, 4, 2, 2, 1, 100, 0, 10, 0⟩ 0 (fun i => (i : ℚ))).iterNum = 4 ∧
    (trainRun ⟨2, 4, 2, 2, 1, 100, 0, 10, 0⟩ 0 (fun i => (i : ℚ))).appliedGrads =
      (List.range (4 / 2)).map
        (fun j => (∑ i ∈ Finset.Ico (j * 2) (j * 2 + 2 : ℕ), (i : ℚ)) / (2 : ℚ)) :=
  C1_amended 0 (fun i => (i : ℚ)) (by decide) (by decide) (by decide) (by decide)
    (by decide) (by decide) (by decide) (by decide)

/-- Claim C2, counterexample.  The claim asserts that `max_iters = K` yields
exactly `K` optimizer steps.  Config: `K = 12`, `N = 4`, one epoch of 12
batches.  The loop counts `iter_num` per micro-step: it executes 12
micro-steps but performs only `3` optimizer steps, not `12`. -/
theorem C2_counterexample :
    (trainRun ⟨4, 12, 1, 12, 1, 100, 0, 10, 0⟩ 0 (fun _ => (1 : ℚ))).iterNum = 12 ∧
    (trainRun ⟨4, 12, 1, 12, 1, 100, 0, 10, 0⟩ 0
      (fun _ => (1 : ℚ))).appliedGrads.length = 3 ∧
    (3 : ℕ) ≠ 12 := by
  refine ⟨?_, ?_, by decide⟩ <;>
    norm_num [trainRun, runEpochs, runBatches, stepBatch, initState, is_master,
      lrRaises, clipValue]

/-- Claim C2 (amended): `max_iters = K` bounds *micro-steps*, not optimizer
steps.  For every configuration with `1 ≤ K ≤ maxEpochs * batchesPerEpoch`
(and a non-crashing schedule configuration), training executes exactly `K`
micro-steps — the inner loop and the outer epoch loop both stop the instant
the counter reaches `K`, regardless of epoch alignment — and when
`gradient_accumulation_steps = 1` this equals exactly `K` optimizer steps. -/
theorem C2_amended {cfg : TrainConfig} (rank : ℕ) (g : ℕ → ℚ)
    (hWD : cfg.warmupIters ≠ cfg.lrDecayIters)
    (_hN : 0 < cfg.gradAccumSteps)
    (hK : 0 < cfg.maxIters)
    (hKE : cfg.maxIters ≤ cfg.maxEpochs * cfg.batchesPerEpoch)
    (_hlog : 0 < cfg.logInterval) (_heval : 0 < cfg.evalInterval) :
    (trainRun cfg rank g).iterNum = cfg.maxIters ∧
    (cfg.gradAccumSteps = 1 →
      (trainRun cfg rank g).appliedGrads.length = cfg.maxIters) := by
  have hiter : (trainRun cfg rank g).iterNum = cfg.maxIters := by
    rw [trainRun_iterNum rank g hWD hK]
    omega
  refine ⟨hiter, fun hN1 => ?_⟩
  obtain ⟨-, -, -, ha⟩ := trainRun_aligned rank g hWD (by rw [hN1]; exact one_dvd _) hK
  rw [ha, hiter, appliedWindows, List.length_map, List.length_range, hN1,
    Nat.div_one]

/-- Claim C2, witness for the amended theorem: `N = 1`, `K = 5`, two epochs
of 3 batches (the cut falls mid-epoch, exercising the double break). -/
theorem C2_witness :
    (trainRun ⟨1, 5, 2, 3, 1, 100, 0, 10, 0⟩ 0 (fun i => (i : ℚ))).iterNum = 5 ∧
    ((1 : ℕ) = 1 →
      (trainRun ⟨1, 5, 2, 3, 1, 100, 0, 10, 0⟩ 0
        (fun i => (i : ℚ))).appliedGrads.length = 5) :=
  C2_amended 0 (fun i => (i : ℚ)) (by decide) (by decide) (by decide) (by decide)
    (by decide) (by decide)

/-- Claim C3, counterexample.  The claim quantifies over *every* `base_lr`
with `min_lr ≤ base_lr`; with `base_lr = min_lr = -1`, `W = 1`, `D = 2` the
warmup ramp is *decreasing*: `lr_at(0) = 0 > -1 = lr_at(1)`, violating
monotone non-decrease on `[0, W]`. -/
theorem C3_counterexample :
    ¬ (∀ i j : ℕ, i ≤ j → j ≤ 1 →
      get_lr i 1 (-1) 2 (-1) ≤ get_lr j 1 (-1) 2 (-1)) := by
  intro h
  have h01 := h 0 1 (by omega) (le_refl 1)
  rw [get_lr_zero one_pos, get_lr_at_warmup (by omega)] at h01
  linarith

/-- Claim C3 (amended): for every `W > 0`, `D > W`, `min_lr ≤ base_lr` and —
additionally — `0 ≤ base_lr`, the schedule satisfies `lr_at 0 = 0`,
`lr_at W = base_lr`, `lr_at D = min_lr`, `lr_at s = min_lr` for all `s > D`,
is monotone non-decreasing on `[0, W]` and monotone non-increasing on
`[W, D]`. -/
theorem C3_amended {W D : ℕ} {lr ml : ℝ} (hW : 0 < W) (hWD : W < D)
    (hml : ml ≤ lr) (h0 : 0 ≤ lr) :
    get_lr 0 W lr D ml = 0 ∧
    get_lr W W lr D ml = lr ∧
    get_lr D W lr D ml = ml ∧
    (∀ s : ℕ, D < s → get_lr s W lr D ml = ml) ∧
    (∀ i j : ℕ, i ≤ j → j ≤ W → get_lr i W lr D ml ≤ get_lr j W lr D ml) ∧
    (∀ i j : ℕ, W ≤ i → i ≤ j → j ≤ D →
      get_lr j W lr D ml ≤ get_lr i W lr D ml) :=
  ⟨get_lr_zero hW lr ml D, get_lr_at_warmup hWD lr ml, get_lr_at_decay hWD lr ml,
    fun s hs => get_lr_past_decay hWD hs lr ml,
    get_lr_ramp_mono hW hWD h0, get_lr_cosine_anti hWD hml⟩

/-- Claim C3, witness for the amended theorem at `W = 1`, `D = 2`,
`base_lr = 1`, `min_lr = 0`. -/
theorem C3_witness :
    get_lr 0 1 1 2 0 = 0 ∧
    get_lr 1 1 1 2 0 = 1 ∧
    get_lr 2 1 1 2 0 = 0 ∧
    (∀ s : ℕ, 2 < s → get_lr s 1 1 2 0 = 0) ∧
    (∀ i j : ℕ, i ≤ j → j ≤ 1 → get_lr i 1 1 2 0 ≤ get_lr j 1 1 2 0) ∧
    (∀ i j : ℕ, 1 ≤ i → i ≤ j → j ≤ 2 → get_lr j 1 1 2 0 ≤ get_lr i 1 1 2 0) :=
  C3_amended (by omega) (by omega) (by norm_num) (by norm_num)

/-- Claim C4, counterexample.  The claim asserts that a configuration with
`decay_iters == warmup_iters` is rejected at startup validation before any
training step, and that the division is never reached at runtime.  Config:
`W = D = 5`, `maxIters = 10`, 10 batches.  No validation exists: five
training steps execute normally and the zero-denominator division inside
`get_lr` is reached mid-training at step 5, aborting the run (the final
model is never saved). -/
theorem C4_counterexample :
    (trainRun ⟨1, 10, 1, 10, 1, 100, 5, 5, 0⟩ 0 (fun i => (i : ℚ))).lrFailedAt
      = some 5 ∧
    (trainRun ⟨1, 10, 1, 10, 1, 100, 5, 5, 0⟩ 0 (fun i => (i : ℚ))).iterNum = 5 ∧
    (trainRun ⟨1, 10, 1, 10, 1, 100, 5, 5, 0⟩ 0 (fun i => (i : ℚ))).finalSaved
      = false := by
  refine ⟨?_, ?_, ?_⟩ <;>
    norm_num [trainRun, runEpochs, runBatches, stepBatch, initState, is_master,
      lrRaises, clipValue]

/-- Claim C4 (amended): there is no startup validation.  A configuration with
`decay_iters = warmup_iters = W` (with `W < max_iters` and enough batches to
reach step `W`) trains steps `0..W-1` normally and then crashes with the
`ZeroDivisionError` raised inside `get_lr` at the first step where
`it = W` — at runtime, mid-training — and the final model is never saved. -/
theorem C4_amended {cfg : TrainConfig} (rank : ℕ) (g : ℕ → ℚ)
    (hW : cfg.warmupIters = cfg.lrDecayIters)
    (hK : cfg.warmupIters < cfg.maxIters)
    (hE : cfg.warmupIters < cfg.maxEpochs * cfg.batchesPerEpoch)
    (_hlog : 0 < cfg.logInterval) (_heval : 0 < cfg.evalInterval) :
    (trainRun cfg rank g).lrFailedAt = some cfg.warmupIters ∧
    (trainRun cfg rank g).iterNum = cfg.warmupIters ∧
    (trainRun cfg rank g).finalSaved = false ∧
    (∀ it, it < cfg.warmupIters →
      lrRaises it cfg.warmupIters cfg.lrDecayIters = false) ∧
    lrRaises cfg.warmupIters cfg.warmupIters cfg.lrDecayIters = true := by
  obtain ⟨ha, hb, hc⟩ := trainRun_freeze rank g hW hK hE
  refine ⟨ha, hb, hc, ?_, ?_⟩
  · intro it hit
    rw [← hW]
    exact lrRaises_lt it hit
  · rw [← hW]
    exact lrRaises_self cfg.warmupIters

/-- Claim C4, witness for the amended theorem: `W = D = 3`, `maxIters = 10`,
one epoch of 10 batches. -/
theorem C4_witness :
    (trainRun ⟨1, 10, 1, 10, 1, 100, 3, 3, 0⟩ 0 (fun _ => (1 : ℚ))).lrFailedAt
      = some 3 ∧
    (trainRun ⟨1, 10, 1, 10, 1, 100, 3, 3, 0⟩ 0 (fun _ => (1 : ℚ))).iterNum = 3 ∧
    (trainRun ⟨1, 10, 1, 10, 1, 100, 3, 3, 0⟩ 0 (fun _ => (1 : ℚ))).finalSaved
      = false ∧
    (∀ it, it < 3 → lrRaises it 3 3 = false) ∧
    lrRaises 3 3 3 = true :=
  C4_amended 0 (fun _ => (1 : ℚ)) (by decide) (by decide) (by decide) (by decide)
    (by decide)

/-- Claim C5, counterexample.  The claim asserts that with exactly one of the
rank/world-size signals present, setup fails with a `TopologyError` rather
than proceeding.  With `RANK = 3` set and `WORLD_SIZE` missing,
`setup_distributed` raises nothing and silently returns the single-process
topology `(rank 0, world_size 1, local_rank 0)`. -/
theorem C5_counterexample :
    setup_distributed ⟨some 3, none, none⟩ = (0, 1, 0) := rfl

/-- Claim C5 (amended): whenever either of the `RANK`/`WORLD_SIZE` signals is
missing — in particular when exactly one of them is present —
`setup_distributed` does not fail: it silently falls back to single-process
mode, returning `(0, 1, 0)`. -/
theorem C5_amended (env : DistEnv)
    (h : env.rank = none ∨ env.world_size = none) :
    setup_distributed env = (0, 1, 0) := by
  obtain ⟨r, w, l⟩ := env
  rcases h with h | h
  · cases h
    rfl
  · cases h
    cases r <;> rfl

/-- Claim C5, witness: `WORLD_SIZE = 4` set, `RANK` missing. -/
theorem C5_witness : setup_distributed ⟨none, some 4, some 2⟩ = (0, 1, 0) :=
  C5_amended ⟨none, some 4, some 2⟩ (Or.inl rfl)

/-- Claim C6, counterexample.  The claim asserts every interval checkpoint is
written with atomic visibility (write to a temporary location, then rename).
The save at `train.py` line 155 is a single `torch.save` writing the final
path directly: it writes the final path (violating the first requirement of
atomic visibility) and performs no rename at all. -/
theorem C6_counterexample :
    ¬ atomicVisibility (torch_save_ops "checkpoint_100.pt") "checkpoint_100.pt" := by
  rintro ⟨h1, -⟩
  exact h1 (FsOp.write "checkpoint_100.pt") (by simp [torch_save_ops]) rfl

/-- Claim C6 (amended): no checkpoint write in the training loop has atomic
visibility — every interval checkpoint is a single direct `torch.save` to
its final path, with no temporary file and no rename, so a concurrent reader
of that path can observe a partially written checkpoint. -/
theorem C6_amended (p : String) : ¬ atomicVisibility (torch_save_ops p) p := by
  rintro ⟨h1, -⟩
  exact h1 (FsOp.write p) (by simp [torch_save_ops]) rfl

/-- Claim C6, witness: the final-model artifact path. -/
theorem C6_witness :
    ¬ atomicVisibility (torch_save_ops "final_model.pt") "final_model.pt" :=
  C6_amended "final_model.pt"

/-- Claim C7, counterexample.  The claim asserts that a checkpoint missing
the model-parameters mapping or the step counter fails to load with a
`CheckpointCorruptError`.  A checkpoint with none of the fields present
loads successfully: the configuration silently defaults to `GPTConfig()` and
the whole file is treated as the state dict; no error is raised and the
step counter is never examined. -/
theorem C7_counterexample :
    load_model ⟨false, false, false⟩ =
      Except.ok (ConfigSource.defaults, WeightsSource.wholeCheckpoint) := rfl

/-- Claim C7 (amended): `load_model` never fails on missing fields: for every
checkpoint it returns `Except.ok`; when the `model` field is absent the
entire checkpoint silently serves as the state dict, and when the `config`
field is absent the configuration silently defaults — the step counter is
not checked at all. -/
theorem C7_amended (c : CheckpointFile) :
    (∃ r, load_model c = Except.ok r) ∧
    (c.hasModel = false →
      load_model c = Except.ok
        ((if c.hasConfig then ConfigSource.fromCheckpoint else ConfigSource.defaults),
          WeightsSource.wholeCheckpoint)) := by
  refine ⟨⟨_, rfl⟩, fun h => ?_⟩
  rw [load_model, h]
  simp

/-- Claim C7, witness: a checkpoint carrying a config and a step counter but
no `model` field. -/
theorem C7_witness :
    (∃ r, load_model ⟨true, false, true⟩ = Except.ok r) ∧
    ((⟨true, false, true⟩ : CheckpointFile).hasModel = false →
      load_model ⟨true, false, true⟩ = Except.ok
        ((if (⟨true, false, true⟩ : CheckpointFile).hasConfig then
            ConfigSource.fromCheckpoint else ConfigSource.defaults),
          WeightsSource.wholeCheckpoint)) :=
  C7_amended ⟨true, false, true⟩

/-- Claim C8: in a multi-rank run, a process with `rank ≠ 0` writes no
interval checkpoint, produces no console output, and never writes the final
model, over the entire training loop — `is_master = (rank == 0)` gates every
such operation. -/
theorem C8_master_only_io (cfg : TrainConfig) (rank : ℕ) (g : ℕ → ℚ)
    (hr : rank ≠ 0) :
    (trainRun cfg rank g).checkpoints = [] ∧
    (trainRun cfg rank g).logCount = 0 ∧
    (trainRun cfg rank g).finalSaved = false :=
  trainRun_nonmaster rank g hr

/-- Claim C8, witness: rank 1 in a short concrete run. -/
theorem C8_witness :
    (trainRun ⟨2, 10, 2, 3, 1, 2, 0, 10, 0⟩ 1 (fun i => (i : ℚ))).checkpoints = [] ∧
    (trainRun ⟨2, 10, 2, 3, 1, 2, 0, 10, 0⟩ 1 (fun i => (i : ℚ))).logCount = 0 ∧
    (trainRun ⟨2, 10, 2, 3, 1, 2, 0, 10, 0⟩ 1 (fun i => (i : ℚ))).finalSaved = false :=
  C8_master_only_io ⟨2, 10, 2, 3, 1, 2, 0, 10, 0⟩ 1 (fun i => (i : ℚ)) (by decide)

/-- Claim C9: the dataset reports `total_tokens / block_size` items and each
item is a pair of block-size windows with the target shifted one token ahead
of the input — but this fails at the last index whenever `block_size`
divides the token count.  Failing input evaluated here: 4 tokens
`[5, 6, 7, 8]`, `block_size = 2`.  The length is `2` and index `0` is the
well-formed pair `([5, 6], [6, 7])`, but valid index `1` slices past the end
of the array: NumPy truncates the chunk to `[7, 8]`, producing the pair
`([7], [8])` whose windows have length `1 ≠ block_size`. -/
theorem C9_truncated_last_window :
    TextDataset.numItems ⟨[5, 6, 7, 8], 2⟩ = 2 ∧
    TextDataset.getItem ⟨[5, 6, 7, 8], 2⟩ 0 = ([5, 6], [6, 7]) ∧
    TextDataset.getItem ⟨[5, 6, 7, 8], 2⟩ 1 = ([7], [8]) ∧
    (TextDataset.getItem ⟨[5, 6, 7, 8], 2⟩ 1).1.length ≠ 2 := by
  refine ⟨rfl, rfl, rfl, by decide⟩

/-- Claim C10: the accumulation-window position is driven by the per-epoch
batch index (which restarts at 0 each epoch) while gradients are cleared
only at window boundaries, so when an epoch's batch count `B` is not a
multiple of `N = gradient_accumulation_steps`, the `B mod N` trailing
micro-gradients of epoch 0 survive the epoch boundary uncleared and are
included in the first optimizer update of epoch 1: that update (index `B/N`)
applies `(∑ g i for i in [B - B mod N, B + N)) / N`, a sum spanning both
epochs. -/
theorem C10_epoch_boundary_leak {cfg : TrainConfig} (rank : ℕ) (g : ℕ → ℚ)
    (hWD : cfg.warmupIters ≠ cfg.lrDecayIters)
    (hN : 1 ≤ cfg.gradAccumSteps)
    (_hBr : cfg.batchesPerEpoch % cfg.gradAccumSteps ≠ 0)
    (hNB : cfg.gradAccumSteps ≤ cfg.batchesPerEpoch)
    (hE : 2 ≤ cfg.maxEpochs)
    (hKge : cfg.batchesPerEpoch + cfg.gradAccumSteps ≤ cfg.maxIters)
    (hclip : cfg.gradClip = 0)
    (_hlog : 0 < cfg.logInterval) (_heval : 0 < cfg.evalInterval) :
    (trainRun cfg rank g).appliedGrads[cfg.batchesPerEpoch / cfg.gradAccumSteps]? =
      some ((∑ i ∈ Finset.Ico
          (cfg.batchesPerEpoch - cfg.batchesPerEpoch % cfg.gradAccumSteps)
          (cfg.batchesPerEpoch + cfg.gradAccumSteps), g i) /
        (cfg.gradAccumSteps : ℚ)) := by
  have h := trainRun_epoch_leak rank g hWD hN hNB hE hKge
  rw [hclip, clipValue_zero, ← Finset.sum_div] at h
  exact h

/-- Claim C10, witness: `B = 3`, `N = 2`, two epochs, `maxIters = 5`: the
second optimizer update applies `(g 2 + g 3 + g 4) / 2`, mixing the trailing
micro-gradient of epoch 0 with the first two of epoch 1. -/
theorem C10_witness :
    (trainRun ⟨2, 5, 2, 3, 1, 100, 0, 10, 0⟩ 0 (fun i => (i : ℚ))).appliedGrads[3 / 2]? =
      some ((∑ i ∈ Finset.Ico (3 - 3 % 2) (3 + 2 : ℕ), (i : ℚ)) / (2 : ℚ)) :=
  C10_epoch_boundary_leak 0 (fun i => (i : ℚ)) (by decide) (by decide) (by decide)
    (by decide) (by decide) (by decide) (by decide) (by decide) (by decide)

end AiModelPipelines
